import Mathlib

/-!
PingParser: the byte-at-a-time frame parser of `src/message/ping-parser.h`.

A shallow embedding of the parser's state machine.  Machine integers are
natural numbers with the wrap-around of their C++ type written out
(`uint8_t` bytes, `uint16_t payloadLength_`, `uint32_t` cursor, capacity and
counters).  The memory behind the raw pointer `rxBuffer_` is a total map from
offsets to bytes, so a store at any offset is visible, also one past the
capacity of the message that owns the memory.
-/

/-- The enumeration `PingParser::ParseState`, in the order of the source. -/
inductive ParseState where
  | NEW_MESSAGE
  | WAIT_START
  | WAIT_HEADER
  | WAIT_LENGTH_L
  | WAIT_LENGTH_H
  | WAIT_MSG_ID_L
  | WAIT_MSG_ID_H
  | WAIT_SRC_ID
  | WAIT_DST_ID
  | WAIT_PAYLOAD
  | WAIT_CHECKSUM_L
  | WAIT_CHECKSUM_H
  | ERROR
  deriving DecidableEq, Repr

/-- The statement `state_++`: the next enumerator in declaration order.
`ERROR` is the last enumerator; `parseByte` never increments from
`WAIT_CHECKSUM_H`, `ERROR` or `NEW_MESSAGE`. -/
def ParseState.next : ParseState → ParseState
  | .NEW_MESSAGE => .WAIT_START
  | .WAIT_START => .WAIT_HEADER
  | .WAIT_HEADER => .WAIT_LENGTH_L
  | .WAIT_LENGTH_L => .WAIT_LENGTH_H
  | .WAIT_LENGTH_H => .WAIT_MSG_ID_L
  | .WAIT_MSG_ID_L => .WAIT_MSG_ID_H
  | .WAIT_MSG_ID_H => .WAIT_SRC_ID
  | .WAIT_SRC_ID => .WAIT_DST_ID
  | .WAIT_DST_ID => .WAIT_PAYLOAD
  | .WAIT_PAYLOAD => .WAIT_CHECKSUM_L
  | .WAIT_CHECKSUM_L => .WAIT_CHECKSUM_H
  | .WAIT_CHECKSUM_H => .ERROR
  | .ERROR => .ERROR

/-- The values `NEW_MESSAGE` and `ERROR`, which `parseByte` returns from its
`WAIT_CHECKSUM_H` case. -/
def ParseState.isVerdict : ParseState → Bool
  | .NEW_MESSAGE => true
  | .ERROR => true
  | _ => false

/-- Modelled from the spec: the message entity of `ping-message.h`, which is
not among the sources.  It owns the byte buffer (`msgData`) and its capacity,
fixed at construction; `msgData` is the memory the parser writes through
`rxBuffer_`, indexed by offset. -/
structure ping_message where
  bufferLength : Nat
  msgData : Nat → Nat

/-- The fields of `class PingParser`.  The pointer `rxBuffer_` aliases
`rxMessage.msgData`, so it has no field of its own. -/
structure PingParser where
  rxMessage : ping_message
  parsed : Nat
  errors : Nat
  rxBufferLength_ : Nat
  rxCount_ : Nat
  payloadLength_ : Nat
  state_ : ParseState

/-- Subtraction of `uint32_t` values, wrapping modulo `2^32 = 4294967296`. -/
def u32sub (a b : Nat) : Nat := (a + 4294967296 - b) % 4294967296

/-- The constructor `PingParser(uint16_t bufferLength = 512)`.  Its
initialiser list is `rxMessage(bufferLength), rxBuffer_(rxMessage.msgData)`;
the other fields take their default member initialisers.  `rxBufferLength_`
has neither, so the value it holds after construction is not fixed by the
source: it is the argument `rxBufferLength0`.  `mem` is the content of the
freshly allocated buffer. -/
def PingParser.init (bufferLength : Nat) (mem : Nat → Nat) (rxBufferLength0 : Nat) :
    PingParser :=
  { rxMessage := { bufferLength := bufferLength % 65536, msgData := mem }
    parsed := 0
    errors := 0
    rxBufferLength_ := rxBufferLength0
    rxCount_ := 0
    payloadLength_ := 0
    state_ := .WAIT_START }

/-- The method `reset()`: `state_ = ParseState::WAIT_START`. -/
def PingParser.reset (p : PingParser) : PingParser :=
  { p with state_ := .WAIT_START }

/-- The statement `rxBuffer_[rxCount_++] = b`. -/
def PingParser.store (p : PingParser) (b : Nat) : PingParser :=
  { p with
    rxMessage := { p.rxMessage with msgData := Function.update p.rxMessage.msgData p.rxCount_ b }
    rxCount_ := (p.rxCount_ + 1) % 4294967296 }

/-- The statement `state_++`. -/
def PingParser.advance (p : PingParser) : PingParser :=
  { p with state_ := p.state_.next }

/-- The method `parseByte(b)`: the value it returns and the parser after the
call.  `verifyChecksum` stands for `rxMessage.verifyChecksum()`, whose code
is in `ping-message.h`. -/
def PingParser.parseByte (verifyChecksum : ping_message → Bool) (p : PingParser) (b : Nat) :
    ParseState × PingParser :=
  match p.state_ with
  | .WAIT_START =>
    let p := { p with rxCount_ := 0 }
    if b = 66 then
      let p := (p.store b).advance
      (p.state_, p)
    else (p.state_, p)
  | .WAIT_HEADER =>
    if b = 82 then
      let p := (p.store b).advance
      (p.state_, p)
    else
      let p := { p with state_ := .WAIT_START }
      (p.state_, p)
  | .WAIT_LENGTH_L =>
    let p := p.store b
    let p := { p with payloadLength_ := b }
    let p := p.advance
    (p.state_, p)
  | .WAIT_LENGTH_H =>
    let p := p.store b
    let p := { p with payloadLength_ := ((b <<< 8) ||| p.payloadLength_) % 65536 }
    if p.payloadLength_ ≤ u32sub (u32sub p.rxBufferLength_ 8) 2 then
      let p := p.advance
      (p.state_, p)
    else
      let p := { p with state_ := .WAIT_START }
      (p.state_, p)
  | .WAIT_MSG_ID_L | .WAIT_MSG_ID_H | .WAIT_SRC_ID | .WAIT_DST_ID =>
    let p := p.store b
    let p := p.advance
    if p.payloadLength_ = 0 then
      let p := p.advance
      (p.state_, p)
    else (p.state_, p)
  | .WAIT_PAYLOAD =>
    let p := p.store b
    let p := { p with payloadLength_ := (p.payloadLength_ + 65535) % 65536 }
    if p.payloadLength_ = 0 then
      let p := p.advance
      (p.state_, p)
    else (p.state_, p)
  | .WAIT_CHECKSUM_L =>
    let p := (p.store b).advance
    (p.state_, p)
  | .WAIT_CHECKSUM_H =>
    let p := p.store b
    let p := { p with state_ := .WAIT_START }
    if verifyChecksum p.rxMessage then
      (.NEW_MESSAGE, { p with parsed := (p.parsed + 1) % 4294967296 })
    else
      (.ERROR, { p with errors := (p.errors + 1) % 4294967296 })
  | .NEW_MESSAGE | .ERROR => (p.state_, p)

/-- A caller handing the bytes `bs` to `parseByte` one after the other: the
values returned, in order, and the parser after the last call. -/
def PingParser.feed (verifyChecksum : ping_message → Bool) :
    PingParser → List Nat → List ParseState × PingParser
  | p, [] => ([], p)
  | p, b :: bs =>
    let r := p.parseByte verifyChecksum b
    let rest := PingParser.feed verifyChecksum r.2 bs
    (r.1 :: rest.1, rest.2)

/-- One call a caller can make on a parser. -/
inductive Call where
  | byte (b : Nat)
  | reset

/-- The parser after one call of `parseByte` or `reset`. -/
def PingParser.call (verifyChecksum : ping_message → Bool) (p : PingParser) : Call → PingParser
  | .byte b => (p.parseByte verifyChecksum b).2
  | .reset => p.reset

/-- The parser after a sequence of calls. -/
def PingParser.calls (verifyChecksum : ping_message → Bool) (p : PingParser) (cs : List Call) :
    PingParser :=
  cs.foldl (PingParser.call verifyChecksum) p

/-- The wire format of section 6 of the spec: magic `'B'`,`'R'`, the payload
length `L` as 16-bit little-endian, message id (2 bytes), source id,
destination id, payload, checksum (2 bytes). -/
def frame (L m0 m1 src dst : Nat) (payload : List Nat) (c0 c1 : Nat) : List Nat :=
  [66, 82, L % 256, L / 256, m0, m1, src, dst] ++ payload ++ [c0, c1]

/-- The values `parseByte` returns over a frame with `L ≥ 1` payload bytes
whose last byte gets the verdict `v`. -/
def frameTrace (L : Nat) (v : ParseState) : List ParseState :=
  [.WAIT_HEADER, .WAIT_LENGTH_L, .WAIT_LENGTH_H, .WAIT_MSG_ID_L, .WAIT_MSG_ID_H,
    .WAIT_SRC_ID, .WAIT_DST_ID, .WAIT_PAYLOAD]
    ++ List.replicate (L - 1) .WAIT_PAYLOAD ++ [.WAIT_CHECKSUM_L, .WAIT_CHECKSUM_H, v]

/-- The stores `rxBuffer_[i] = b`, `rxBuffer_[i+1] = ...` of consecutive bytes. -/
def storeList (mem : Nat → Nat) : Nat → List Nat → Nat → Nat
  | _, [] => mem
  | i, b :: bs => storeList (Function.update mem i b) (i + 1) bs

/-- The verdict `parseByte` returns from `WAIT_CHECKSUM_H`. -/
def verdict (ok : Bool) : ParseState :=
  if ok then .NEW_MESSAGE else .ERROR

/-- The message buffer after the bytes `bs` were stored from offset 0. -/
def framed (m : ping_message) (bs : List Nat) : ping_message :=
  { m with msgData := storeList m.msgData 0 bs }

/-- A freshly constructed parser of capacity 512 over a zeroed buffer. -/
def exampleParser : PingParser := PingParser.init 512 (fun _ => 0) 512

/-- A parser of capacity 512 waiting for the checksum high byte. -/
def exampleChecksumH : PingParser :=
  { exampleParser with state_ := .WAIT_CHECKSUM_H }

/-- A parser waiting for the checksum high byte whose counter `parsed` holds
the largest `uint32_t` value. -/
def exampleParsedMax : PingParser :=
  { exampleParser with state_ := .WAIT_CHECKSUM_H, parsed := 4294967295 }

/-- Noise that cannot start a frame, read with the flag `afterB` telling
whether the byte before was `'B'`: no `'R'` comes directly after a `'B'`, and
the noise does not end directly after a `'B'`. -/
def quietFrom : Bool → List Nat → Bool
  | afterB, [] => !afterB
  | afterB, b :: bs => !(afterB && decide (b = 82)) && quietFrom (decide (b = 66)) bs

/-- Noise in which no `'B'` is directly followed by `'R'` and whose last byte
is not `'B'`. -/
def quietNoise (N : List Nat) : Bool := quietFrom false N

/-- The byte offsets, counted from `k`, at which a verdict was returned: the
`i`-th value of `rs` is the answer to byte number `k + i` (the first byte has
number `k + 1`). -/
def verdictOffsetsFrom : Nat → List ParseState → List Nat
  | _, [] => []
  | k, s :: rs =>
    if s.isVerdict then (k + 1) :: verdictOffsetsFrom (k + 1) rs
    else verdictOffsetsFrom (k + 1) rs

/-- The byte offsets of a stream at which `parseByte` returned `NEW_MESSAGE`
or `ERROR`; offset `n` is the end of the `n`-th byte. -/
def verdictOffsets (rs : List ParseState) : List Nat := verdictOffsetsFrom 0 rs

/-- A parser of capacity 512 in `WAIT_START` with a stale cursor, a stale
payload counter and counters from earlier traffic. -/
def exampleStale : PingParser :=
  { exampleParser with rxCount_ := 77, payloadLength_ := 5, parsed := 3, errors := 1 }

/-- The payload length a buffer declares: the 16-bit little-endian field at
offsets 2 and 3. -/
def lengthField (m : ping_message) : Nat := m.msgData 2 + 256 * m.msgData 3

/-- The cursor at which `parseByte` calls `verifyChecksum()` on a buffer whose
length field is `L`: the number of bytes stored since the cursor was last
reset to 0.  For `L ≥ 1` these are the `L + 10` bytes of the frame.  For
`L = 0` the id cases skip a state on every byte, two bytes are taken as ids,
the payload counter wraps on the next and 65535 payload bytes follow:
`4 + 2 + 1 + 65535 + 2` bytes (`framing_step` proves both). -/
def verdictCursor (L : Nat) : Nat := if L = 0 then 65544 else L + 10

/-- The assumption on `verifyChecksum()` under which two parsers can be
compared: its answer depends only on the capacity of the message and on the
bytes stored since the cursor was last reset to 0, those at the offsets below
the cursor at which it is called. -/
def ChecksumReadsStored (vc : ping_message → Bool) : Prop :=
  ∀ m1 m2 : ping_message, m1.bufferLength = m2.bufferLength →
    (∀ i, i < verdictCursor (lengthField m1) → m1.msgData i = m2.msgData i) → vc m1 = vc m2

/-- What the running state tells about the cursor and the payload counter
while a frame is being stored: where the cursor stands, that the payload
counter agrees with the stored length field, and how many bytes are still to
come before the checksum is verified. -/
def Framing (p : PingParser) : Prop :=
  match p.state_ with
  | .WAIT_HEADER => p.rxCount_ = 1
  | .WAIT_LENGTH_L => p.rxCount_ = 2
  | .WAIT_LENGTH_H =>
    p.rxCount_ = 3 ∧ p.payloadLength_ = p.rxMessage.msgData 2 ∧ p.payloadLength_ < 256
  | .WAIT_MSG_ID_L =>
    p.rxCount_ = 4 ∧ p.payloadLength_ = lengthField p.rxMessage ∧ p.payloadLength_ < 65536
  | .WAIT_MSG_ID_H =>
    p.rxCount_ = 5 ∧ p.payloadLength_ = lengthField p.rxMessage ∧ p.payloadLength_ < 65536 ∧
      1 ≤ p.payloadLength_
  | .WAIT_SRC_ID =>
    p.payloadLength_ = lengthField p.rxMessage ∧ p.payloadLength_ < 65536 ∧
      ((p.rxCount_ = 6 ∧ 1 ≤ p.payloadLength_) ∨ (p.rxCount_ = 5 ∧ p.payloadLength_ = 0))
  | .WAIT_DST_ID =>
    p.rxCount_ = 7 ∧ p.payloadLength_ = lengthField p.rxMessage ∧ p.payloadLength_ < 65536 ∧
      1 ≤ p.payloadLength_
  | .WAIT_PAYLOAD =>
    (p.payloadLength_ = 0 ∧ lengthField p.rxMessage = 0 ∧ p.rxCount_ = 6) ∨
    (1 ≤ p.payloadLength_ ∧ p.payloadLength_ < 65536 ∧ 4 ≤ p.rxCount_ ∧
      lengthField p.rxMessage < 65536 ∧
      p.rxCount_ + p.payloadLength_ + 2 = verdictCursor (lengthField p.rxMessage))
  | .WAIT_CHECKSUM_L =>
    lengthField p.rxMessage < 65536 ∧ p.rxCount_ + 2 = verdictCursor (lengthField p.rxMessage)
  | .WAIT_CHECKSUM_H =>
    lengthField p.rxMessage < 65536 ∧ p.rxCount_ + 1 = verdictCursor (lengthField p.rxMessage)
  | _ => True

/-- Two parsers in step: the same running state and capacities, counters
that differ by the constants `a` and `e` modulo `2^32`, and, once a frame has
started, the same cursor and the same bytes below it; the payload counters
agree from the moment the length low byte has been received. -/
def InStep (a e : Nat) (p q : PingParser) : Prop :=
  p.state_ = q.state_ ∧ p.rxBufferLength_ = q.rxBufferLength_ ∧
  p.rxMessage.bufferLength = q.rxMessage.bufferLength ∧
  p.parsed = (a + q.parsed) % 4294967296 ∧ p.errors = (e + q.errors) % 4294967296 ∧
  (p.state_ ≠ .WAIT_START →
    p.rxCount_ = q.rxCount_ ∧ ∀ i, i < p.rxCount_ → p.rxMessage.msgData i = q.rxMessage.msgData i) ∧
  (p.state_ ≠ .WAIT_START → p.state_ ≠ .WAIT_HEADER → p.state_ ≠ .WAIT_LENGTH_L →
    p.payloadLength_ = q.payloadLength_)

/-- An instance of `verifyChecksum()`: the 16-bit sum of the header, id and
payload bytes is compared with the little-endian checksum field behind the
payload. -/
def exampleChecksum (m : ping_message) : Bool :=
  decide (((List.range (lengthField m + 8)).map m.msgData).sum % 65536 =
    m.msgData (lengthField m + 8) + 256 * m.msgData (lengthField m + 9))

/-- A parser of capacity 512 aborted in the middle of a payload, over a buffer
of stale bytes, with counters from earlier traffic. -/
def exampleMidFrame : PingParser :=
  { rxMessage := { bufferLength := 512, msgData := fun _ => 7 }
    parsed := 3
    errors := 1
    rxBufferLength_ := 512
    rxCount_ := 9
    payloadLength_ := 3
    state_ := .WAIT_PAYLOAD }

/-! ## Arithmetic of the machine integers -/

theorem u32sub_gate (C : Nat) (hC : C < 2 ^ 32) (h10 : 10 ≤ C) :
    u32sub (u32sub C 8) 2 = C - 10 := by
  unfold u32sub
  omega

theorem u32sub_gate_small (C : Nat) (h10 : C < 10) :
    u32sub (u32sub C 8) 2 = C + 2 ^ 32 - 10 := by
  unfold u32sub
  omega

theorem decode_length (lo hi : Nat) (hlo : lo < 256) (hhi : hi < 256) :
    ((hi <<< 8) ||| lo) % 2 ^ 16 = lo + 256 * hi := by
  have h : 2 ^ 8 * hi + lo = 2 ^ 8 * hi ||| lo := Nat.mul_add_lt_is_or (by omega) hi
  rw [Nat.shiftLeft_eq, Nat.mul_comm hi, ← h]
  omega

theorem feed_append (vc : ping_message → Bool) (p : PingParser) (xs ys : List Nat) :
    p.feed vc (xs ++ ys) =
      ((p.feed vc xs).1 ++ ((p.feed vc xs).2.feed vc ys).1, ((p.feed vc xs).2.feed vc ys).2) := by
  induction xs generalizing p with
  | nil => simp [PingParser.feed]
  | cons x xs ih => simp [PingParser.feed, ih]

theorem parseByte_start (vc : ping_message → Bool) (p : PingParser) (b : Nat)
    (h : p.state_ = .WAIT_START) :
    p.parseByte vc b = if b = 66 then (.WAIT_HEADER, {p with rxMessage := {p.rxMessage with msgData := Function.update p.rxMessage.msgData 0 b}, rxCount_ := 1, state_ := .WAIT_HEADER}) else (.WAIT_START, {p with rxCount_ := 0 }) := by
  simp [PingParser.parseByte, h, PingParser.store, PingParser.advance, ParseState.next]

theorem parseByte_header (vc : ping_message → Bool) (p : PingParser) (b : Nat)
    (h : p.state_ = .WAIT_HEADER) :
    p.parseByte vc b = if b = 82 then (.WAIT_LENGTH_L, { (p.store b) with state_ := .WAIT_LENGTH_L }) else (.WAIT_START, {p with state_ := .WAIT_START }) := by
  simp [PingParser.parseByte, h, PingParser.store, PingParser.advance, ParseState.next]

theorem parseByte_payload (vc : ping_message → Bool) (p : PingParser) (b : Nat)
    (h : p.state_ = .WAIT_PAYLOAD) :
    p.parseByte vc b =
      if (p.payloadLength_ + 65535) % 65536 = 0 then
        (.WAIT_CHECKSUM_L, { (p.store b) with payloadLength_ := 0, state_ := .WAIT_CHECKSUM_L })
      else (.WAIT_PAYLOAD, { p.store b with payloadLength_ := (p.payloadLength_ + 65535) % 65536 }) := by
  simp only [PingParser.parseByte, h, PingParser.store, PingParser.advance, ParseState.next]
  split <;> simp_all

theorem feed_payload (vc : ping_message → Bool) (bs : List Nat) :
    ∀ p : PingParser, p.state_ = .WAIT_PAYLOAD → p.payloadLength_ = bs.length →
      1 ≤ bs.length → bs.length < 65536 → p.rxCount_ + bs.length < 4294967296 →
      p.feed vc bs =
        (List.replicate (bs.length - 1) .WAIT_PAYLOAD ++ [.WAIT_CHECKSUM_L],
          { p with
            rxMessage := { p.rxMessage with
              msgData := storeList p.rxMessage.msgData p.rxCount_ bs }
            rxCount_ := p.rxCount_ + bs.length
            payloadLength_ := 0
            state_ := .WAIT_CHECKSUM_L }) := by
  induction bs with
  | nil => intro p _ _ h; simp at h
  | cons b bs ih =>
    intro p hs hpl _ hlen hcur
    simp only [List.length_cons] at hpl hlen hcur
    have hc : (p.rxCount_ + 1) % 4294967296 = p.rxCount_ + 1 := by omega
    cases bs with
    | nil =>
      have h0 : (p.payloadLength_ + 65535) % 65536 = 0 := by
        simp at hpl; omega
      simp [PingParser.feed, parseByte_payload vc p b hs, h0, PingParser.store, storeList, hc]
    | cons c cs =>
      have h0 : (p.payloadLength_ + 65535) % 65536 = (c :: cs).length := by
        simp at hpl hlen ⊢; omega
      have hne : ¬ ((c :: cs).length = 0) := by simp
      rw [PingParser.feed, parseByte_payload vc p b hs, h0, if_neg hne]
      simp only []
      rw [ih _ (by simp [PingParser.store, hs]) (by simp [PingParser.store]) (by simp)
        (by simp at hlen ⊢; omega) (by simp [PingParser.store, hc] at hcur ⊢; omega)]
      simp [PingParser.store, hc, storeList, List.replicate_succ]
      omega

theorem decode_length_field (L : Nat) (h16 : L < 65536) :
    ((L / 256) <<< 8 ||| L % 256) % 65536 = L := by
  have h := decode_length (L % 256) (L / 256) (by omega) (by omega)
  simp only [Nat.reducePow] at h
  omega

theorem feed_header (vc : ping_message → Bool) (p : PingParser) (L m0 m1 src dst : Nat)
    (hs : p.state_ = .WAIT_START) (hcap : p.rxBufferLength_ < 4294967296)
    (hL1 : 1 ≤ L) (hL : L + 10 ≤ p.rxBufferLength_) (h16 : L < 65536) :
    p.feed vc [66, 82, L % 256, L / 256, m0, m1, src, dst] =
      ([.WAIT_HEADER, .WAIT_LENGTH_L, .WAIT_LENGTH_H, .WAIT_MSG_ID_L, .WAIT_MSG_ID_H,
          .WAIT_SRC_ID, .WAIT_DST_ID, .WAIT_PAYLOAD],
        { p with
          rxMessage := { p.rxMessage with
            msgData := storeList p.rxMessage.msgData 0 [66, 82, L % 256, L / 256, m0, m1, src, dst] }
          rxCount_ := 8
          payloadLength_ := L
          state_ := .WAIT_PAYLOAD }) := by
  have hd := decode_length_field L h16
  have hg : L ≤ u32sub (u32sub p.rxBufferLength_ 8) 2 := by
    rw [u32sub_gate _ hcap (by omega)]; omega
  have hne : ¬ L = 0 := by omega
  simp [PingParser.feed, PingParser.parseByte, hs, PingParser.store, PingParser.advance,
    ParseState.next, hd, hg, hne, storeList]

theorem storeList_append (mem : Nat → Nat) (i : Nat) (xs ys : List Nat) :
    storeList mem i (xs ++ ys) = storeList (storeList mem i xs) (i + xs.length) ys := by
  induction xs generalizing mem i with
  | nil => simp [storeList]
  | cons x xs ih => simp [storeList, ih, Nat.add_assoc, Nat.add_comm 1]


theorem feed_checksum (vc : ping_message → Bool) (q : PingParser) (c0 c1 : Nat)
    (hs : q.state_ = .WAIT_CHECKSUM_L) (hcur : q.rxCount_ + 2 < 4294967296) :
    q.feed vc [c0, c1] =
      ([.WAIT_CHECKSUM_H,
          verdict (vc { q.rxMessage with
            msgData := storeList q.rxMessage.msgData q.rxCount_ [c0, c1] })],
        { rxMessage := { q.rxMessage with
            msgData := storeList q.rxMessage.msgData q.rxCount_ [c0, c1] }
          parsed := if vc { q.rxMessage with
              msgData := storeList q.rxMessage.msgData q.rxCount_ [c0, c1] }
            then (q.parsed + 1) % 4294967296 else q.parsed
          errors := if vc { q.rxMessage with
              msgData := storeList q.rxMessage.msgData q.rxCount_ [c0, c1] }
            then q.errors else (q.errors + 1) % 4294967296
          rxBufferLength_ := q.rxBufferLength_
          rxCount_ := q.rxCount_ + 2
          payloadLength_ := q.payloadLength_
          state_ := .WAIT_START }) := by
  have h1 : (q.rxCount_ + 1) % 4294967296 = q.rxCount_ + 1 := by omega
  have h2 : (q.rxCount_ + 1 + 1) % 4294967296 = q.rxCount_ + 2 := by omega
  cases hv : vc { q.rxMessage with
      msgData := storeList q.rxMessage.msgData q.rxCount_ [c0, c1] } <;>
    simp [storeList] at hv <;>
    simp [PingParser.feed, PingParser.parseByte, PingParser.store, PingParser.advance,
      ParseState.next, storeList, verdict, hs, h1, h2, hv]

theorem feed_frame (vc : ping_message → Bool) (p : PingParser) (L m0 m1 src dst : Nat)
    (payload : List Nat) (c0 c1 : Nat)
    (hs : p.state_ = .WAIT_START) (hcap : p.rxBufferLength_ < 4294967296)
    (hL1 : 1 ≤ L) (hL : L + 10 ≤ p.rxBufferLength_) (hlen : payload.length = L) (h16 : L < 65536) :
    p.feed vc (frame L m0 m1 src dst payload c0 c1) =
      (frameTrace L (verdict (vc (framed p.rxMessage (frame L m0 m1 src dst payload c0 c1)))),
        { rxMessage := framed p.rxMessage (frame L m0 m1 src dst payload c0 c1)
          parsed := if vc (framed p.rxMessage (frame L m0 m1 src dst payload c0 c1))
            then (p.parsed + 1) % 4294967296 else p.parsed
          errors := if vc (framed p.rxMessage (frame L m0 m1 src dst payload c0 c1))
            then p.errors else (p.errors + 1) % 4294967296
          rxBufferLength_ := p.rxBufferLength_
          rxCount_ := L + 10
          payloadLength_ := 0
          state_ := .WAIT_START }) := by
  unfold frame frameTrace framed
  subst hlen
  have hmem : storeList p.rxMessage.msgData 0
      ([66, 82, payload.length % 256, payload.length / 256, m0, m1, src, dst] ++ payload
        ++ [c0, c1]) =
      storeList (storeList (storeList p.rxMessage.msgData 0
        [66, 82, payload.length % 256, payload.length / 256, m0, m1, src, dst]) 8 payload)
        (8 + payload.length) [c0, c1] := by
    have e : payload.length + 1 + 1 + 1 + 1 + 1 + 1 + 1 + 1 = 8 + payload.length := by omega
    rw [storeList_append, storeList_append]; simp [e]
  rw [hmem]
  rw [feed_append, feed_append, feed_header vc p _ m0 m1 src dst hs hcap hL1 hL h16]
  simp only []
  rw [feed_payload vc payload _ rfl rfl (by omega) (by omega) (by simp; omega)]
  simp only []
  rw [feed_checksum vc _ c0 c1 rfl (by simp; omega)]
  simp [Nat.add_assoc]
  omega

theorem storeList_below (bs : List Nat) :
    ∀ (mem : Nat → Nat) (i j : Nat), j < i → storeList mem i bs j = mem j := by
  induction bs with
  | nil => intro mem i j _; rfl
  | cons b bs ih =>
    intro mem i j hj
    rw [storeList, ih _ _ _ (by omega), Function.update_noteq (by omega)]

theorem storeList_getElem (bs : List Nat) :
    ∀ (mem : Nat → Nat) (i k : Nat), k < bs.length →
      bs[k]? = some (storeList mem i bs (i + k)) := by
  induction bs with
  | nil => intro mem i k hk; simp at hk
  | cons b bs ih =>
    intro mem i k hk
    cases k with
    | zero => simp [storeList, storeList_below bs _ (i + 1) i (by omega)]
    | succ k =>
      simp only [List.length_cons] at hk
      rw [storeList, List.getElem?_cons_succ, ih (Function.update mem i b) (i + 1) k (by omega)]
      congr 2
      omega

/-- The length gate for a capacity of at least 10: in `WAIT_LENGTH_H`, with the
low byte `lo` in the payload counter, the high byte `hi` is stored, the length
is decoded as `lo + 256 * hi`, and the parser moves to `WAIT_MSG_ID_L` exactly
when `lo + 256 * hi + 10 ≤ C`, else to `WAIT_START`; the value returned is the
new running state and the counters are unchanged. -/
theorem length_gate_from_ten (vc : ping_message → Bool) (p : PingParser) (hi : Nat)
    (hs : p.state_ = .WAIT_LENGTH_H) (hlo : p.payloadLength_ < 256) (hhi : hi < 256)
    (h10 : 10 ≤ p.rxBufferLength_) (hcap : p.rxBufferLength_ < 4294967296) :
    (p.parseByte vc hi).2.rxMessage.msgData p.rxCount_ = hi ∧
    (p.parseByte vc hi).1 = (p.parseByte vc hi).2.state_ ∧
    ((p.parseByte vc hi).2.state_ =
      if p.payloadLength_ + 256 * hi + 10 ≤ p.rxBufferLength_ then .WAIT_MSG_ID_L
      else .WAIT_START) ∧
    ((p.parseByte vc hi).2.state_ = .WAIT_MSG_ID_L →
      (p.parseByte vc hi).2.payloadLength_ = p.payloadLength_ + 256 * hi) ∧
    (p.parseByte vc hi).2.parsed = p.parsed ∧ (p.parseByte vc hi).2.errors = p.errors := by
  have hd := decode_length p.payloadLength_ hi hlo hhi
  simp only [Nat.reducePow] at hd
  have hg := u32sub_gate _ hcap h10
  by_cases h : p.payloadLength_ + 256 * hi + 10 ≤ p.rxBufferLength_
  · have h1 : p.payloadLength_ + 256 * hi ≤ p.rxBufferLength_ - 10 := by omega
    simp [PingParser.parseByte, hs, PingParser.store, PingParser.advance, ParseState.next,
      hd, hg, h, h1]
  · have h1 : ¬ p.payloadLength_ + 256 * hi ≤ p.rxBufferLength_ - 10 := by omega
    simp [PingParser.parseByte, hs, PingParser.store, hd, hg, h, h1]

/-! ## Concrete runs -/

/-- Claim C1: a zero-length frame is not parsed.  On the frame
`'B','R',0,0,1,2,3,4,5,6` a fresh parser of capacity 512 whose checksum always
verifies returns no `NEW_MESSAGE`: the message-id bytes skip two states each,
the source id is consumed as payload, and `parsed` stays 0. -/
theorem zero_length_frame_not_parsed :
    ((PingParser.init 512 (fun _ => 0) 512).feed (fun _ => true)
        (frame 0 1 2 3 4 [] 5 6)).1 =
      [.WAIT_HEADER, .WAIT_LENGTH_L, .WAIT_LENGTH_H, .WAIT_MSG_ID_L, .WAIT_SRC_ID,
        .WAIT_PAYLOAD, .WAIT_PAYLOAD, .WAIT_PAYLOAD, .WAIT_PAYLOAD, .WAIT_PAYLOAD] ∧
    ((PingParser.init 512 (fun _ => 0) 512).feed (fun _ => true)
        (frame 0 1 2 3 4 [] 5 6)).2.parsed = 0 := by
  decide

/-- Claim C2: the write cursor passes the capacity.  With capacity 10, after
`'B','R',0,0` and seven more bytes the cursor is 11: the eleventh byte was
stored at offset 10. -/
theorem cursor_exceeds_capacity :
    ((PingParser.init 10 (fun _ => 0) 10).calls (fun _ => true)
        ([66, 82, 0, 0, 1, 2, 3, 4, 5, 6, 7].map Call.byte)).rxCount_ = 11 ∧
    ((PingParser.init 10 (fun _ => 0) 10).calls (fun _ => true)
        ([66, 82, 0, 0, 1, 2, 3, 4, 5, 6].map Call.byte)).rxCount_ = 10 ∧
    ((PingParser.init 10 (fun _ => 0) 10).calls (fun _ => true)
        ([66, 82, 0, 0, 1, 2, 3, 4, 5, 6].map Call.byte)).state_ = .WAIT_PAYLOAD := by
  decide

/-- Claim C3: with length field 0 the id bytes do not pass through
`WAIT_MSG_ID_H`, `WAIT_SRC_ID`, `WAIT_DST_ID` to `WAIT_CHECKSUM_L`.  After
`'B','R',0,0` the message-id low byte returns `WAIT_SRC_ID`, the high byte
returns `WAIT_PAYLOAD`, and the tenth byte of the frame returns `WAIT_PAYLOAD`,
not `NEW_MESSAGE`. -/
theorem zero_length_enters_payload :
    (((PingParser.init 512 (fun _ => 0) 512).feed (fun _ => true) [66, 82, 0, 0]).2.feed
        (fun _ => true) [1, 2, 3, 4, 5, 6]).1 =
      [.WAIT_SRC_ID, .WAIT_PAYLOAD, .WAIT_PAYLOAD, .WAIT_PAYLOAD, .WAIT_PAYLOAD,
        .WAIT_PAYLOAD] ∧
    ((PingParser.init 512 (fun _ => 0) 512).feed (fun _ => true) [66, 82, 0, 0]).2.state_ =
      .WAIT_MSG_ID_L := by
  decide

/-- Claim C6: with capacity 9 the length gate lets the length 0 through.  The
high byte 0 after the low byte 0 moves the parser to `WAIT_MSG_ID_L` although
`0 + 256 * 0 + 10 ≤ 9` is false: `rxBufferLength_ - 8 - 2` wraps to `2^32 - 1`. -/
theorem length_gate_wraps_below_ten :
    ((PingParser.init 9 (fun _ => 0) 9).feed (fun _ => true) [66, 82, 0, 0]).1 =
      [.WAIT_HEADER, .WAIT_LENGTH_L, .WAIT_LENGTH_H, .WAIT_MSG_ID_L] ∧
    ((PingParser.init 9 (fun _ => 0) 9).feed (fun _ => true) [66, 82, 0, 0]).2.state_ =
      .WAIT_MSG_ID_L ∧
    ¬ (0 + 256 * 0 + 10 ≤ 9) ∧
    u32sub (u32sub 9 8) 2 = 4294967295 := by
  decide

/-- Claim C8: `reset()` sets the running state to `WAIT_START` and leaves
`parsed`, `errors` and the message buffer as they were; it is a total
function, so it has no failure case.  It also leaves the cursor, the payload
counter and the capacity untouched. -/
theorem reset_frame (p : PingParser) :
    p.reset.state_ = .WAIT_START ∧ p.reset.parsed = p.parsed ∧ p.reset.errors = p.errors ∧
    p.reset.rxMessage = p.rxMessage ∧ p.reset.rxCount_ = p.rxCount_ ∧
    p.reset.payloadLength_ = p.payloadLength_ ∧
    p.reset.rxBufferLength_ = p.rxBufferLength_ := by
  simp [PingParser.reset]

/-! ## The checksum handoff -/

/-- Claim C4, as stated, fails when `parsed` holds `2^32 - 1`: in
`WAIT_CHECKSUM_H` with a verifying checksum `parseByte` returns `NEW_MESSAGE`
and `parsed++` wraps to 0, so `parsed` is not increased by 1. -/
theorem checksum_handoff_parsed_wraps :
    exampleParsedMax.state_ = .WAIT_CHECKSUM_H ∧
    exampleParsedMax.parsed = 4294967295 ∧
    (exampleParsedMax.parseByte (fun _ => true) 0).1 = .NEW_MESSAGE ∧
    (exampleParsedMax.parseByte (fun _ => true) 0).2.parsed = 0 ∧
    (exampleParsedMax.parseByte (fun _ => true) 0).2.parsed ≠ exampleParsedMax.parsed + 1 := by
  decide

/-- Claim C4, amended: in `WAIT_CHECKSUM_H`, `parseByte(b)` stores `b` at the
cursor and leaves the running state at `WAIT_START`; it returns `NEW_MESSAGE`
exactly when `verifyChecksum()` is true on the buffer after the store, and then
`parsed` is increased by 1 modulo `2^32` with `errors` unchanged; otherwise it
returns `ERROR` with `errors` increased by 1 modulo `2^32` and `parsed`
unchanged. -/
theorem checksum_handoff (vc : ping_message → Bool) (p : PingParser) (b : Nat)
    (hs : p.state_ = .WAIT_CHECKSUM_H) :
    (p.parseByte vc b).2.rxMessage = (p.store b).rxMessage ∧
    (p.store b).rxMessage.msgData p.rxCount_ = b ∧
    (∀ i, i ≠ p.rxCount_ → (p.store b).rxMessage.msgData i = p.rxMessage.msgData i) ∧
    (p.parseByte vc b).2.state_ = .WAIT_START ∧
    ((p.parseByte vc b).1 = .NEW_MESSAGE ↔ vc (p.store b).rxMessage = true) ∧
    (vc (p.store b).rxMessage = true →
      (p.parseByte vc b).1 = .NEW_MESSAGE ∧
      (p.parseByte vc b).2.parsed = (p.parsed + 1) % 2 ^ 32 ∧
      (p.parseByte vc b).2.errors = p.errors) ∧
    (vc (p.store b).rxMessage = false →
      (p.parseByte vc b).1 = .ERROR ∧
      (p.parseByte vc b).2.errors = (p.errors + 1) % 2 ^ 32 ∧
      (p.parseByte vc b).2.parsed = p.parsed) := by
  cases hv : vc (p.store b).rxMessage <;>
    simp [PingParser.store] at hv <;>
    simp [PingParser.parseByte, PingParser.store, hs, hv] <;>
    intro i hi <;> simp [Function.update_noteq hi]

/-- The checksum handoff at a parser of capacity 512 that receives the byte 7
in `WAIT_CHECKSUM_H`. -/
theorem checksum_handoff_witness :
    exampleChecksumH.state_ = .WAIT_CHECKSUM_H ∧
    ((exampleChecksumH.parseByte (fun _ => true) 7).2.rxMessage =
        (exampleChecksumH.store 7).rxMessage ∧
      (exampleChecksumH.store 7).rxMessage.msgData exampleChecksumH.rxCount_ = 7 ∧
      (∀ i, i ≠ exampleChecksumH.rxCount_ →
        (exampleChecksumH.store 7).rxMessage.msgData i = exampleChecksumH.rxMessage.msgData i) ∧
      (exampleChecksumH.parseByte (fun _ => true) 7).2.state_ = .WAIT_START ∧
      ((exampleChecksumH.parseByte (fun _ => true) 7).1 = .NEW_MESSAGE ↔
        (fun _ => true) (exampleChecksumH.store 7).rxMessage = true) ∧
      ((fun _ => true) (exampleChecksumH.store 7).rxMessage = true →
        (exampleChecksumH.parseByte (fun _ => true) 7).1 = .NEW_MESSAGE ∧
        (exampleChecksumH.parseByte (fun _ => true) 7).2.parsed =
          (exampleChecksumH.parsed + 1) % 2 ^ 32 ∧
        (exampleChecksumH.parseByte (fun _ => true) 7).2.errors = exampleChecksumH.errors) ∧
      ((fun _ => true) (exampleChecksumH.store 7).rxMessage = false →
        (exampleChecksumH.parseByte (fun _ => true) 7).1 = .ERROR ∧
        (exampleChecksumH.parseByte (fun _ => true) 7).2.errors =
          (exampleChecksumH.errors + 1) % 2 ^ 32 ∧
        (exampleChecksumH.parseByte (fun _ => true) 7).2.parsed = exampleChecksumH.parsed)) :=
  ⟨rfl, checksum_handoff (fun _ => true) exampleChecksumH 7 rfl⟩


/-! ## A verdict after 65544 bytes -/

theorem feed_zero_length_ids (vc : ping_message → Bool) (p : PingParser) (m0 m1 : Nat)
    (hs : p.state_ = .WAIT_START) (hcap : p.rxBufferLength_ < 4294967296)
    (h10 : 10 ≤ p.rxBufferLength_) :
    p.feed vc [66, 82, 0, 0, m0, m1] =
      ([.WAIT_HEADER, .WAIT_LENGTH_L, .WAIT_LENGTH_H, .WAIT_MSG_ID_L, .WAIT_SRC_ID,
          .WAIT_PAYLOAD],
        { p with
          rxMessage := { p.rxMessage with
            msgData := storeList p.rxMessage.msgData 0 [66, 82, 0, 0, m0, m1] }
          rxCount_ := 6
          payloadLength_ := 0
          state_ := .WAIT_PAYLOAD }) := by
  have hg : u32sub (u32sub p.rxBufferLength_ 8) 2 = p.rxBufferLength_ - 10 :=
    u32sub_gate _ hcap h10
  simp [PingParser.feed, PingParser.parseByte, PingParser.store,
    PingParser.advance, ParseState.next, storeList, hs, hg]

theorem feed_payload_wrap (vc : ping_message → Bool) (q : PingParser) (b : Nat)
    (hs : q.state_ = .WAIT_PAYLOAD) (hpl : q.payloadLength_ = 0)
    (hcur : q.rxCount_ + 1 < 4294967296) :
    q.feed vc [b] =
      ([.WAIT_PAYLOAD],
        { q with
          rxMessage := { q.rxMessage with
            msgData := storeList q.rxMessage.msgData q.rxCount_ [b] }
          rxCount_ := q.rxCount_ + 1
          payloadLength_ := 65535 }) := by
  have hc : (q.rxCount_ + 1) % 4294967296 = q.rxCount_ + 1 := by omega
  rw [PingParser.feed, parseByte_payload vc q b hs, hpl]
  simp [PingParser.feed, PingParser.store, storeList, hc]

/-- The run of a frame with length field 0: `'B','R',0,0`, two bytes taken as
ids, one byte that wraps the payload counter to 65535, 65535 payload bytes
and two checksum bytes: 65544 bytes in all before the verdict. -/
theorem feed_zero_length (vc : ping_message → Bool) (p : PingParser) (m0 m1 b : Nat)
    (bs : List Nat) (c0 c1 : Nat)
    (hs : p.state_ = .WAIT_START) (hcap : p.rxBufferLength_ < 4294967296)
    (h10 : 10 ≤ p.rxBufferLength_) (hlen : bs.length = 65535) :
    (p.feed vc ([66, 82, 0, 0, m0, m1] ++ [b] ++ bs ++ [c0, c1])).1.getLast? =
      some (verdict (vc (framed p.rxMessage ([66, 82, 0, 0, m0, m1] ++ [b] ++ bs ++ [c0, c1])))) ∧
    (p.feed vc ([66, 82, 0, 0, m0, m1] ++ [b] ++ bs ++ [c0, c1])).2.rxCount_ = 65544 ∧
    (p.feed vc ([66, 82, 0, 0, m0, m1] ++ [b] ++ bs ++ [c0, c1])).2.rxMessage =
      framed p.rxMessage ([66, 82, 0, 0, m0, m1] ++ [b] ++ bs ++ [c0, c1]) := by
  have hmem : storeList p.rxMessage.msgData 0 ([66, 82, 0, 0, m0, m1] ++ [b] ++ bs ++ [c0, c1]) =
      storeList (storeList (storeList (storeList p.rxMessage.msgData 0 [66, 82, 0, 0, m0, m1])
        6 [b]) 7 bs) 65542 [c0, c1] := by
    rw [storeList_append, storeList_append, storeList_append]; simp [hlen]
  unfold framed
  rw [hmem, feed_append, feed_append, feed_append, feed_zero_length_ids vc p m0 m1 hs hcap h10]
  simp only []
  rw [feed_payload_wrap vc _ b rfl rfl (by simp)]
  simp only []
  rw [feed_payload vc bs _ rfl (by simp [hlen]) (by omega) (by omega) (by simp [hlen])]
  simp only []
  rw [feed_checksum vc _ c0 c1 rfl (by simp [hlen])]
  simp only [hlen, Nat.reduceAdd]
  refine ⟨?_, trivial, trivial⟩
  rw [List.getLast?_append]
  rfl

theorem framed_append_below (m : ping_message) (xs ys : List Nat) (k : Nat)
    (hk : k < xs.length) :
    (framed m (xs ++ ys)).msgData k = (framed m xs).msgData k := by
  unfold framed
  simp only []
  rw [storeList_append, storeList_below ys _ (0 + xs.length) k (by omega)]

/-- Claim C5: a verdict on a frame that is not well-formed.  A fresh parser of
capacity 512 fed `'B','R',0,0` and 65540 zero bytes returns `NEW_MESSAGE` on
the last byte with the cursor at 65544, while the stored length field is 0:
the cursor is neither `L + 10 = 10` nor within the capacity. -/
theorem verdict_on_overlong_frame :
    (exampleParser.feed (fun _ => true)
        ([66, 82, 0, 0, 0, 0] ++ [0] ++ List.replicate 65535 0 ++ [0, 0])).1.getLast? =
      some .NEW_MESSAGE ∧
    (exampleParser.feed (fun _ => true)
        ([66, 82, 0, 0, 0, 0] ++ [0] ++ List.replicate 65535 0 ++ [0, 0])).2.rxCount_ = 65544 ∧
    (exampleParser.feed (fun _ => true)
        ([66, 82, 0, 0, 0, 0] ++ [0] ++ List.replicate 65535 0 ++ [0, 0])).2.rxMessage.msgData 2 = 0 ∧
    (exampleParser.feed (fun _ => true)
        ([66, 82, 0, 0, 0, 0] ++ [0] ++ List.replicate 65535 0 ++ [0, 0])).2.rxMessage.msgData 3 = 0 ∧
    exampleParser.rxBufferLength_ = 512 := by
  have h := feed_zero_length (fun _ => true) exampleParser 0 0 0 (List.replicate 65535 0) 0 0
    rfl (by decide) (by decide) (List.length_replicate _ _)
  refine ⟨h.1, h.2.1, ?_, ?_, rfl⟩
  · rw [h.2.2, List.append_assoc, List.append_assoc,
      framed_append_below _ _ _ 2 (by decide)]
    rfl
  · rw [h.2.2, List.append_assoc, List.append_assoc,
      framed_append_below _ _ _ 3 (by decide)]
    rfl

/-! ## Resynchronisation on noise -/


theorem parseByte_counters (vc : ping_message → Bool) (p : PingParser) (b : Nat)
    (h : (p.parseByte vc b).1.isVerdict = false) :
    (p.parseByte vc b).2.parsed = p.parsed ∧ (p.parseByte vc b).2.errors = p.errors := by
  cases hs : p.state_ <;>
    simp [PingParser.parseByte, hs, PingParser.store, PingParser.advance] at h ⊢ <;>
    (try split) <;> (try simp) <;>
    (split at h <;> simp [ParseState.isVerdict] at h)

theorem feed_counters (vc : ping_message → Bool) (bs : List Nat) :
    ∀ p : PingParser, (∀ s ∈ (p.feed vc bs).1, s.isVerdict = false) →
      (p.feed vc bs).2.parsed = p.parsed ∧ (p.feed vc bs).2.errors = p.errors := by
  induction bs with
  | nil => intro p _; simp [PingParser.feed]
  | cons b bs ih =>
    intro p h
    simp only [PingParser.feed, List.mem_cons, forall_eq_or_imp] at h ⊢
    have h1 := parseByte_counters vc p b h.1
    have h2 := ih _ h.2
    exact ⟨h2.1.trans h1.1, h2.2.trans h1.2⟩

theorem feed_quiet (vc : ping_message → Bool) (N : List Nat) :
    ∀ (afterB : Bool) (p : PingParser), quietFrom afterB N = true →
      (p.state_ = .WAIT_START ∨ (p.state_ = .WAIT_HEADER ∧ afterB = true)) →
      (∀ s ∈ (p.feed vc N).1, s = .WAIT_START ∨ s = .WAIT_HEADER) ∧
      (p.feed vc N).2.state_ = .WAIT_START ∧
      (p.feed vc N).2.parsed = p.parsed ∧
      (p.feed vc N).2.errors = p.errors ∧
      (p.feed vc N).2.rxBufferLength_ = p.rxBufferLength_ ∧
      (p.feed vc N).2.rxMessage.bufferLength = p.rxMessage.bufferLength ∧
      (∀ i, 0 < i → (p.feed vc N).2.rxMessage.msgData i = p.rxMessage.msgData i) := by
  induction N with
  | nil =>
    intro afterB p hq hp
    simp [quietFrom] at hq
    simp [PingParser.feed]
    rcases hp with hp | ⟨_, hp⟩
    · exact hp
    · simp [hq] at hp
  | cons b N ih =>
    intro afterB p hq hp
    simp only [quietFrom, Bool.and_eq_true, Bool.not_eq_true', Bool.and_eq_false_imp,
      decide_eq_true_eq, decide_eq_false_iff_not] at hq
    rcases hp with hp | ⟨hp, hB⟩
    · by_cases hb : b = 66
      · have := ih (decide (b = 66)) (p.parseByte vc b).2 hq.2
          (Or.inr ⟨by simp [PingParser.parseByte, hp, hb, PingParser.store, PingParser.advance,
            ParseState.next], by simp [hb]⟩)
        simp only [PingParser.feed, List.mem_cons, forall_eq_or_imp]
        simp [PingParser.parseByte, hp, hb, PingParser.store, PingParser.advance,
            ParseState.next] at this ⊢
        refine ⟨this.1, this.2.1, this.2.2.1, this.2.2.2.1, this.2.2.2.2.1, this.2.2.2.2.2.1, ?_⟩
        intro i hi
        rw [this.2.2.2.2.2.2 i hi, Function.update_noteq (by omega)]
      · have := ih (decide (b = 66)) (p.parseByte vc b).2 hq.2
          (Or.inl (by simp [PingParser.parseByte, hp, hb]))
        simp only [PingParser.feed, List.mem_cons, forall_eq_or_imp]
        simp [PingParser.parseByte, hp, hb] at this ⊢
        exact this
    · have hb : ¬ b = 82 := hq.1 hB
      have := ih (decide (b = 66)) (p.parseByte vc b).2 hq.2
          (Or.inl (by simp [PingParser.parseByte, hp, hb]))
      simp only [PingParser.feed, List.mem_cons, forall_eq_or_imp]
      simp [PingParser.parseByte, hp, hb] at this ⊢
      exact this

theorem framed_congr (m1 m2 : ping_message) (b : Nat) (bs : List Nat)
    (hcap : m1.bufferLength = m2.bufferLength)
    (hmem : ∀ i, 0 < i → m1.msgData i = m2.msgData i) :
    framed m1 (b :: bs) = framed m2 (b :: bs) := by
  have h : Function.update m1.msgData 0 b = Function.update m2.msgData 0 b := by
    funext i
    by_cases hi : i = 0
    · subst hi; simp
    · rw [Function.update_noteq hi, Function.update_noteq hi]
      exact hmem i (by omega)
  simp [framed, storeList, hcap, h]

/-- Claim C7, as stated, fails on the example of the spec: after the noise
`0x00, 0x41, 'B'` the parser waits in `WAIT_HEADER`, the `'B'` of the frame
sends it back to `WAIT_START`, and the frame, which parses when fed alone, is
lost: no `NEW_MESSAGE` is returned and `parsed` stays 0. -/
theorem noise_ending_in_B_loses_frame :
    (exampleParser.feed (fun _ => true) (frame 1 1 2 3 4 [9] 5 6)).1.getLast? =
      some .NEW_MESSAGE ∧
    (exampleParser.feed (fun _ => true) ([0, 65, 66] ++ frame 1 1 2 3 4 [9] 5 6)).1 =
      [.WAIT_START, .WAIT_START, .WAIT_HEADER, .WAIT_START, .WAIT_START, .WAIT_START,
        .WAIT_START, .WAIT_START, .WAIT_START, .WAIT_START, .WAIT_START, .WAIT_START,
        .WAIT_START, .WAIT_START] ∧
    (exampleParser.feed (fun _ => true) ([0, 65, 66] ++ frame 1 1 2 3 4 [9] 5 6)).2.parsed =
      0 := by
  decide

/-- Claim C7, amended: let the noise `N` have no `'B'` directly followed by
`'R'` and not end in `'B'`, and let `F` be a frame with payload length
`L ≥ 1`, `L + 10 ≤ C`, on which `verifyChecksum` is true.  Fed to a freshly
constructed parser, every prefix of `N` leaves `parsed` and `errors` at 0,
every value returned over `N` is `WAIT_START` or `WAIT_HEADER`, and the bytes
of `F` that follow return the trace of a frame ending in `NEW_MESSAGE` on the
last byte of `F`, with `parsed = 1` and `errors = 0` afterwards. -/
theorem resync_after_quiet_noise (vc : ping_message → Bool) (n : Nat) (mem : Nat → Nat)
    (C : Nat) (N : List Nat) (L m0 m1 src dst : Nat) (payload : List Nat) (c0 c1 : Nat)
    (hN : quietNoise N = true) (hC : C < 4294967296) (hL1 : 1 ≤ L) (hL : L + 10 ≤ C)
    (h16 : L < 65536) (hlen : payload.length = L)
    (hvc : vc (framed (PingParser.init n mem C).rxMessage
      (frame L m0 m1 src dst payload c0 c1)) = true) :
    (∀ N1 N2, N = N1 ++ N2 →
      ((PingParser.init n mem C).feed vc N1).2.parsed = 0 ∧
      ((PingParser.init n mem C).feed vc N1).2.errors = 0) ∧
    (∀ s ∈ ((PingParser.init n mem C).feed vc N).1, s = .WAIT_START ∨ s = .WAIT_HEADER) ∧
    ((PingParser.init n mem C).feed vc (N ++ frame L m0 m1 src dst payload c0 c1)).1 =
      ((PingParser.init n mem C).feed vc N).1 ++ frameTrace L .NEW_MESSAGE ∧
    ((PingParser.init n mem C).feed vc (N ++ frame L m0 m1 src dst payload c0 c1)).2.parsed =
      1 ∧
    ((PingParser.init n mem C).feed vc (N ++ frame L m0 m1 src dst payload c0 c1)).2.errors =
      0 := by
  have hq := feed_quiet vc N false (PingParser.init n mem C) hN (Or.inl rfl)
  obtain ⟨hres, hst, hpar, herr, hcap, hbl, hmem⟩ := hq
  have hfr : framed ((PingParser.init n mem C).feed vc N).2.rxMessage
      (frame L m0 m1 src dst payload c0 c1) =
      framed (PingParser.init n mem C).rxMessage (frame L m0 m1 src dst payload c0 c1) :=
    framed_congr _ _ _ _ hbl hmem
  have hF := feed_frame vc ((PingParser.init n mem C).feed vc N).2 L m0 m1 src dst payload c0 c1
    hst (by rw [hcap]; exact hC) hL1 (by rw [hcap]; exact hL) hlen h16
  rw [hfr, hvc] at hF
  refine ⟨?_, hres, ?_, ?_, ?_⟩
  · intro N1 N2 hsplit
    have hnv : ∀ s ∈ ((PingParser.init n mem C).feed vc N1).1, s.isVerdict = false := by
      intro s hs
      have hs2 : s ∈ ((PingParser.init n mem C).feed vc N).1 := by
        rw [hsplit, feed_append]
        exact List.mem_append_left _ hs
      rcases hres s hs2 with h | h <;> rw [h] <;> rfl
    exact feed_counters vc N1 _ hnv
  · rw [feed_append, hF]; rfl
  · rw [feed_append, hF]; simp [hpar]; rfl
  · rw [feed_append, hF]; simp [herr]; rfl

/-- The amended resync claim at the noise `0x00, 0x41, 'B', 0x00` followed by
a frame with one payload byte, on a parser of capacity 512. -/
theorem resync_after_quiet_noise_witness :
    (quietNoise [0, 65, 66, 0] = true ∧ 512 < 4294967296 ∧ 1 ≤ 1 ∧ 1 + 10 ≤ 512 ∧
      1 < 65536 ∧ [9].length = 1 ∧
      (fun _ => true) (framed (PingParser.init 512 (fun _ => 0) 512).rxMessage
        (frame 1 1 2 3 4 [9] 5 6)) = true) ∧
    ((∀ N1 N2, [0, 65, 66, 0] = N1 ++ N2 →
        ((PingParser.init 512 (fun _ => 0) 512).feed (fun _ => true) N1).2.parsed = 0 ∧
        ((PingParser.init 512 (fun _ => 0) 512).feed (fun _ => true) N1).2.errors = 0) ∧
      (∀ s ∈ ((PingParser.init 512 (fun _ => 0) 512).feed (fun _ => true) [0, 65, 66, 0]).1,
        s = .WAIT_START ∨ s = .WAIT_HEADER) ∧
      ((PingParser.init 512 (fun _ => 0) 512).feed (fun _ => true)
          ([0, 65, 66, 0] ++ frame 1 1 2 3 4 [9] 5 6)).1 =
        ((PingParser.init 512 (fun _ => 0) 512).feed (fun _ => true) [0, 65, 66, 0]).1 ++
          frameTrace 1 .NEW_MESSAGE ∧
      ((PingParser.init 512 (fun _ => 0) 512).feed (fun _ => true)
          ([0, 65, 66, 0] ++ frame 1 1 2 3 4 [9] 5 6)).2.parsed = 1 ∧
      ((PingParser.init 512 (fun _ => 0) 512).feed (fun _ => true)
          ([0, 65, 66, 0] ++ frame 1 1 2 3 4 [9] 5 6)).2.errors = 0) :=
  ⟨⟨by decide, by decide, by decide, by decide, by decide, rfl, rfl⟩,
    resync_after_quiet_noise (fun _ => true) 512 (fun _ => 0) 512 [0, 65, 66, 0] 1 1 2 3 4 [9] 5 6
      (by decide) (by decide) (by decide) (by decide) (by decide) rfl rfl⟩

/-! ## A frame from any idle state -/

theorem verdictOffsetsFrom_append (xs ys : List ParseState) :
    ∀ k, verdictOffsetsFrom k (xs ++ ys) =
      verdictOffsetsFrom k xs ++ verdictOffsetsFrom (k + xs.length) ys := by
  induction xs with
  | nil => intro k; simp [verdictOffsetsFrom]
  | cons x xs ih =>
    intro k
    have e : k + 1 + xs.length = k + (xs.length + 1) := by omega
    simp only [List.cons_append, verdictOffsetsFrom, List.length_cons]
    split <;> simp [ih, e]

theorem verdictOffsetsFrom_replicate (n : Nat) :
    ∀ k, verdictOffsetsFrom k (List.replicate n ParseState.WAIT_PAYLOAD) = [] := by
  induction n with
  | zero => intro k; rfl
  | succ n ih => intro k; simp [List.replicate_succ, verdictOffsetsFrom, ih, ParseState.isVerdict]

theorem verdict_isVerdict (ok : Bool) : (verdict ok).isVerdict = true := by
  cases ok <;> rfl

theorem verdictOffsetsFrom_frameTrace (L k : Nat) (v : ParseState) (hL : 1 ≤ L)
    (hv : v.isVerdict = true) :
    verdictOffsetsFrom k (frameTrace L v) = [k + L + 10] := by
  unfold frameTrace
  rw [verdictOffsetsFrom_append, verdictOffsetsFrom_append, verdictOffsetsFrom_replicate]
  cases v <;> simp [ParseState.isVerdict] at hv <;>
    simp [verdictOffsetsFrom, ParseState.isVerdict] <;> omega

theorem frameTrace_length (L : Nat) (v : ParseState) (hL : 1 ≤ L) :
    (frameTrace L v).length = L + 10 := by
  simp [frameTrace]; omega

/-- Claim C10: a frame with `L ≥ 1` payload bytes, `L + 10 ≤ C`, fed to a parser
in `WAIT_START` whatever its cursor, payload counter, buffer and counters.
The values returned are `WAIT_HEADER`, `WAIT_LENGTH_L`, `WAIT_LENGTH_H`,
`WAIT_MSG_ID_L`, `WAIT_MSG_ID_H`, `WAIT_SRC_ID`, `WAIT_DST_ID`, `WAIT_PAYLOAD`,
`L - 1` times `WAIT_PAYLOAD`, `WAIT_CHECKSUM_L`, `WAIT_CHECKSUM_H` and the
verdict of `verifyChecksum` on the buffer holding the frame: the buffer equals
the frame byte for byte below `L + 10` and the cursor is `L + 10`.  The parser
is back in `WAIT_START`, so a second such frame behaves alike, and the
verdicts of the two frames come at byte offsets `L1 + 10` and `L1 + L2 + 20`
and nowhere else. -/
theorem frame_from_idle (vc : ping_message → Bool) (p : PingParser) (C : Nat)
    (L1 a0 a1 s1 d1 : Nat) (pay1 : List Nat) (x0 x1 : Nat)
    (L2 b0 b1 s2 d2 : Nat) (pay2 : List Nat) (y0 y1 : Nat)
    (hs : p.state_ = .WAIT_START) (hC : p.rxBufferLength_ = C) (hcap : C < 4294967296)
    (h1 : 1 ≤ L1) (h1c : L1 + 10 ≤ C) (h1s : L1 < 65536) (h1l : pay1.length = L1)
    (h2 : 1 ≤ L2) (h2c : L2 + 10 ≤ C) (h2s : L2 < 65536) (h2l : pay2.length = L2) :
    (p.feed vc (frame L1 a0 a1 s1 d1 pay1 x0 x1)).1 =
      frameTrace L1 (verdict (vc (framed p.rxMessage (frame L1 a0 a1 s1 d1 pay1 x0 x1)))) ∧
    (p.feed vc (frame L1 a0 a1 s1 d1 pay1 x0 x1)).2.rxMessage =
      framed p.rxMessage (frame L1 a0 a1 s1 d1 pay1 x0 x1) ∧
    (∀ i, i < L1 + 10 → (frame L1 a0 a1 s1 d1 pay1 x0 x1)[i]? =
      some ((framed p.rxMessage (frame L1 a0 a1 s1 d1 pay1 x0 x1)).msgData i)) ∧
    (p.feed vc (frame L1 a0 a1 s1 d1 pay1 x0 x1)).2.rxCount_ = L1 + 10 ∧
    (p.feed vc (frame L1 a0 a1 s1 d1 pay1 x0 x1)).2.state_ = .WAIT_START ∧
    (p.feed vc (frame L1 a0 a1 s1 d1 pay1 x0 x1 ++ frame L2 b0 b1 s2 d2 pay2 y0 y1)).1 =
      frameTrace L1 (verdict (vc (framed p.rxMessage (frame L1 a0 a1 s1 d1 pay1 x0 x1)))) ++
      frameTrace L2 (verdict (vc (framed (framed p.rxMessage (frame L1 a0 a1 s1 d1 pay1 x0 x1))
        (frame L2 b0 b1 s2 d2 pay2 y0 y1)))) ∧
    verdictOffsets
        (p.feed vc (frame L1 a0 a1 s1 d1 pay1 x0 x1 ++ frame L2 b0 b1 s2 d2 pay2 y0 y1)).1 =
      [L1 + 10, L1 + L2 + 20] := by
  subst hC
  have hF1 := feed_frame vc p L1 a0 a1 s1 d1 pay1 x0 x1 hs hcap h1 h1c h1l h1s
  have hF2 := feed_frame vc (p.feed vc (frame L1 a0 a1 s1 d1 pay1 x0 x1)).2 L2 b0 b1 s2 d2 pay2
    y0 y1 (by rw [hF1]) (by rw [hF1]; exact hcap) h2 (by rw [hF1]; exact h2c) h2l h2s
  have hlen1 : (frame L1 a0 a1 s1 d1 pay1 x0 x1).length = L1 + 10 := by
    simp [frame, h1l]
  have hboth : (p.feed vc
      (frame L1 a0 a1 s1 d1 pay1 x0 x1 ++ frame L2 b0 b1 s2 d2 pay2 y0 y1)).1 =
      frameTrace L1 (verdict (vc (framed p.rxMessage (frame L1 a0 a1 s1 d1 pay1 x0 x1)))) ++
      frameTrace L2 (verdict (vc (framed (framed p.rxMessage (frame L1 a0 a1 s1 d1 pay1 x0 x1))
        (frame L2 b0 b1 s2 d2 pay2 y0 y1)))) := by
    rw [feed_append, hF2, hF1]
  refine ⟨by rw [hF1], by rw [hF1], ?_, by rw [hF1], by rw [hF1], hboth, ?_⟩
  · intro i hi
    have := storeList_getElem (frame L1 a0 a1 s1 d1 pay1 x0 x1) p.rxMessage.msgData 0 i
      (by omega)
    simpa [framed] using this
  · rw [hboth, verdictOffsets, verdictOffsetsFrom_append,
      verdictOffsetsFrom_frameTrace L1 0 _ h1 (verdict_isVerdict _),
      verdictOffsetsFrom_frameTrace L2 _ _ h2 (verdict_isVerdict _),
      frameTrace_length L1 _ h1]
    simp
    omega

/-- The trace of two back-to-back frames (payload lengths 1 and 2) on a
parser of capacity 512 that starts in `WAIT_START` with stale fields. -/
theorem frame_from_idle_witness :
    (exampleStale.state_ = .WAIT_START ∧ exampleStale.rxBufferLength_ = 512 ∧
      512 < 4294967296 ∧ 1 ≤ 1 ∧ 1 + 10 ≤ 512 ∧ 1 < 65536 ∧ [9].length = 1 ∧
      1 ≤ 2 ∧ 2 + 10 ≤ 512 ∧ 2 < 65536 ∧ [7, 8].length = 2) ∧
    ((exampleStale.feed (fun _ => true) (frame 1 1 2 3 4 [9] 5 6)).1 =
        frameTrace 1 (verdict ((fun _ => true) (framed exampleStale.rxMessage (frame 1 1 2 3 4 [9] 5 6)))) ∧
      (exampleStale.feed (fun _ => true) (frame 1 1 2 3 4 [9] 5 6)).2.rxMessage =
        framed exampleStale.rxMessage (frame 1 1 2 3 4 [9] 5 6) ∧
      (∀ i, i < 1 + 10 → (frame 1 1 2 3 4 [9] 5 6)[i]? =
        some ((framed exampleStale.rxMessage (frame 1 1 2 3 4 [9] 5 6)).msgData i)) ∧
      (exampleStale.feed (fun _ => true) (frame 1 1 2 3 4 [9] 5 6)).2.rxCount_ = 1 + 10 ∧
      (exampleStale.feed (fun _ => true) (frame 1 1 2 3 4 [9] 5 6)).2.state_ = .WAIT_START ∧
      (exampleStale.feed (fun _ => true) (frame 1 1 2 3 4 [9] 5 6 ++ frame 2 1 2 3 4 [7, 8] 5 6)).1 =
        frameTrace 1 (verdict ((fun _ => true) (framed exampleStale.rxMessage (frame 1 1 2 3 4 [9] 5 6)))) ++
        frameTrace 2 (verdict ((fun _ => true) (framed (framed exampleStale.rxMessage (frame 1 1 2 3 4 [9] 5 6))
          (frame 2 1 2 3 4 [7, 8] 5 6)))) ∧
      verdictOffsets
          (exampleStale.feed (fun _ => true) (frame 1 1 2 3 4 [9] 5 6 ++ frame 2 1 2 3 4 [7, 8] 5 6)).1 =
        [1 + 10, 1 + 2 + 20]) :=
  ⟨⟨rfl, rfl, by decide, by decide, by decide, by decide, rfl, by decide, by decide,
      by decide, rfl⟩,
    frame_from_idle (fun _ => true) exampleStale 512 1 1 2 3 4 [9] 5 6 2 1 2 3 4 [7, 8] 5 6
      rfl rfl (by decide) (by decide) (by decide) (by decide) rfl (by decide) (by decide)
      (by decide) rfl⟩

/-! ## The cursor and the payload counter along a frame -/

theorem framing_step (vc : ping_message → Bool) (p : PingParser) (b : Nat) (hb : b < 256)
    (hJ : Framing p) : Framing (p.parseByte vc b).2 := by
  cases hs : p.state_ <;> simp only [Framing, hs, lengthField, verdictCursor] at hJ
  case WAIT_START =>
    by_cases h : b = 66 <;>
      simp [PingParser.parseByte, hs, h, PingParser.store, PingParser.advance, ParseState.next,
        Framing]
  case WAIT_HEADER =>
    by_cases h : b = 82 <;>
      simp [PingParser.parseByte, hs, h, PingParser.store, PingParser.advance, ParseState.next,
        Framing, hJ]
  case WAIT_LENGTH_L =>
    simp [PingParser.parseByte, hs, PingParser.store, PingParser.advance, ParseState.next,
        Framing, hJ, hb]
  case WAIT_LENGTH_H =>
    obtain ⟨hc, hpl, hlt⟩ := hJ
    have hd := decode_length p.payloadLength_ b hlt hb
    simp only [Nat.reducePow] at hd
    by_cases hg : p.payloadLength_ + 256 * b ≤ u32sub (u32sub p.rxBufferLength_ 8) 2 <;>
      simp [PingParser.parseByte, hs, PingParser.store, PingParser.advance, ParseState.next,
        Framing, lengthField, hc, hd, hg, ← hpl]
    all_goals omega
  case WAIT_MSG_ID_L =>
    obtain ⟨hc, hpl, hlt⟩ := hJ
    by_cases h0 : p.payloadLength_ = 0 <;>
      simp [PingParser.parseByte, hs, PingParser.store, PingParser.advance, ParseState.next,
        Framing, lengthField, h0, hc, ← hpl]
    all_goals omega
  case WAIT_MSG_ID_H =>
    obtain ⟨hc, hpl, hlt, h1⟩ := hJ
    have h0 : ¬ p.payloadLength_ = 0 := by omega
    simp [PingParser.parseByte, hs, PingParser.store, PingParser.advance, ParseState.next,
        Framing, lengthField, h0, hc, ← hpl]
    omega
  case WAIT_SRC_ID =>
    obtain ⟨hpl, hlt, ⟨hc, h1⟩ | ⟨hc, h0⟩⟩ := hJ
    · have h0 : ¬ p.payloadLength_ = 0 := by omega
      simp [PingParser.parseByte, hs, PingParser.store, PingParser.advance, ParseState.next,
        Framing, lengthField, h0, hc, ← hpl]
      omega
    · simp [PingParser.parseByte, hs, PingParser.store, PingParser.advance, ParseState.next,
        Framing, lengthField, verdictCursor, h0, hc, ← hpl]
  case WAIT_DST_ID =>
    obtain ⟨hc, hpl, hlt, h1⟩ := hJ
    have h0 : ¬ p.payloadLength_ = 0 := by omega
    simp [PingParser.parseByte, hs, PingParser.store, PingParser.advance, ParseState.next,
        Framing, lengthField, verdictCursor, h0, hc, ← hpl]
    omega
  case WAIT_PAYLOAD =>
    rw [parseByte_payload vc p b hs]
    cases hJ with
    | inl h =>
      have h0 := h.1
      have hlf := h.2.1
      have hc := h.2.2
      have hz : ¬ (p.payloadLength_ + 65535) % 65536 = 0 := by omega
      have h2 : ¬ 2 = p.rxCount_ := by omega
      have h3 : ¬ 3 = p.rxCount_ := by omega
      rw [if_neg hz]
      simp only [PingParser.store, Framing, hs, lengthField, verdictCursor,
        Function.update_apply, h2, h3, if_false, hlf, if_true]
      omega
    | inr h =>
      have h1 := h.1
      have hlt := h.2.1
      have hc := h.2.2.1
      have hlf := h.2.2.2.1
      have hlo := h.2.2.2.2
      have h2 : ¬ 2 = p.rxCount_ := by omega
      have h3 : ¬ 3 = p.rxCount_ := by omega
      have hw : (p.rxCount_ + 1) % 4294967296 = p.rxCount_ + 1 := by
        split at hlo <;> omega
      cases Classical.em ((p.payloadLength_ + 65535) % 65536 = 0) with
      | inl hz =>
        rw [if_pos hz]
        simp only [PingParser.store, Framing, lengthField, verdictCursor,
          Function.update_apply, h2, h3, if_false, hw]
        split at hlo <;> rename_i hL <;> simp only [hL, if_true, if_false] <;> omega
      | inr hz =>
        rw [if_neg hz]
        simp only [PingParser.store, Framing, hs, lengthField, verdictCursor,
          Function.update_apply, h2, h3, if_false, hw]
        split at hlo <;> rename_i hL <;> simp only [hL, if_true, if_false] <;> omega
  case WAIT_CHECKSUM_L =>
    have hlf := hJ.1
    have hlo := hJ.2
    have hc : 4 ≤ p.rxCount_ := by split at hlo <;> omega
    have h2 : ¬ 2 = p.rxCount_ := by omega
    have h3 : ¬ 3 = p.rxCount_ := by omega
    have hw : (p.rxCount_ + 1) % 4294967296 = p.rxCount_ + 1 := by
      split at hlo <;> omega
    simp only [PingParser.parseByte, hs, PingParser.store, PingParser.advance, ParseState.next,
      Framing, lengthField, verdictCursor, hw, Function.update_apply, h2, h3, if_false]
    omega
  case WAIT_CHECKSUM_H =>
    by_cases hv : vc (p.store b).rxMessage <;> simp [PingParser.store] at hv <;>
      simp [PingParser.parseByte, hs, PingParser.store, Framing, hv]
  case NEW_MESSAGE =>
    simp [PingParser.parseByte, hs, Framing]
  case ERROR =>
    simp [PingParser.parseByte, hs, Framing]

/-- In `WAIT_CHECKSUM_H` of a frame stored from `WAIT_START` on, the cursor at
which `verifyChecksum()` is called is `verdictCursor` of the stored length
field. -/
theorem cursor_at_verifyChecksum (p : PingParser) (b : Nat) (hJ : Framing p)
    (hs : p.state_ = .WAIT_CHECKSUM_H) :
    (p.store b).rxCount_ = verdictCursor (lengthField (p.store b).rxMessage) := by
  simp only [Framing, hs] at hJ
  have hlo := hJ.2
  have hlf := hJ.1
  have h4 : 4 ≤ p.rxCount_ := by unfold verdictCursor at hlo; split at hlo <;> omega
  have hw : (p.rxCount_ + 1) % 4294967296 = p.rxCount_ + 1 := by
    unfold verdictCursor at hlo; split at hlo <;> omega
  have h2 : ¬ 2 = p.rxCount_ := by omega
  have h3 : ¬ 3 = p.rxCount_ := by omega
  simp only [lengthField] at hlo
  simp only [PingParser.store, lengthField, Function.update_apply, h2, h3, if_false, hw]
  exact hlo

/-! ## Two parsers in step -/

theorem agree_store (f g : Nat → Nat) (c b : Nat) (h : ∀ i, i < c → f i = g i) :
    ∀ i, i < (c + 1) % 4294967296 → Function.update f c b i = Function.update g c b i := by
  intro i hi
  have hle : (c + 1) % 4294967296 ≤ c + 1 := Nat.mod_le _ _
  cases Classical.em (i = c) with
  | inl hic => subst hic; simp
  | inr hic =>
    rw [Function.update_noteq hic, Function.update_noteq hic]
    exact h i (by omega)

theorem instep_step (vc : ping_message → Bool) (hvc : ChecksumReadsStored vc) (a e : Nat)
    (p q : PingParser) (b : Nat) (hJ : Framing p) (h : InStep a e p q) :
    (p.parseByte vc b).1 = (q.parseByte vc b).1 ∧
      InStep a e (p.parseByte vc b).2 (q.parseByte vc b).2 := by
  obtain ⟨hst, hcap, hbl, hpar, herr, hcur, hpl⟩ := h
  cases hs : p.state_ <;> rw [hs] at hst hcur hpl <;> simp only [Framing, hs] at hJ
  case WAIT_START =>
    by_cases hb : b = 66 <;>
      simp [PingParser.parseByte, hs, ← hst, hb, PingParser.store, PingParser.advance,
        ParseState.next, InStep, hcap, hbl, hpar, herr]
  case WAIT_HEADER =>
    have hc := hcur (by simp)
    by_cases hb : b = 82 <;>
      simp [PingParser.parseByte, hs, ← hst, hb, PingParser.store, PingParser.advance,
        ParseState.next, InStep, hcap, hbl, hpar, herr, ← hc.1]
    exact agree_store _ _ _ _ hc.2
  case WAIT_LENGTH_L =>
    have hc := hcur (by simp)
    simp [PingParser.parseByte, hs, ← hst, PingParser.store, PingParser.advance,
        ParseState.next, InStep, hcap, hbl, hpar, herr, ← hc.1]
    exact agree_store _ _ _ _ hc.2
  case WAIT_LENGTH_H =>
    have hc := hcur (by simp)
    have hp := hpl (by simp) (by simp) (by simp)
    by_cases hg : (b <<< 8 ||| q.payloadLength_) % 65536 ≤ u32sub (u32sub q.rxBufferLength_ 8) 2 <;>
      simp [PingParser.parseByte, hs, ← hst, PingParser.store, PingParser.advance,
        ParseState.next, InStep, hcap, hbl, hpar, herr, ← hc.1, hp, hg]
    exact agree_store _ _ _ _ hc.2
  case WAIT_MSG_ID_L =>
    have hc := hcur (by simp)
    have hp := hpl (by simp) (by simp) (by simp)
    by_cases h0 : q.payloadLength_ = 0 <;>
      simp [PingParser.parseByte, hs, ← hst, PingParser.store, PingParser.advance,
        ParseState.next, InStep, hcap, hbl, hpar, herr, ← hc.1, hp, h0] <;>
      exact agree_store _ _ _ _ hc.2
  case WAIT_MSG_ID_H =>
    have hc := hcur (by simp)
    have hp := hpl (by simp) (by simp) (by simp)
    by_cases h0 : q.payloadLength_ = 0 <;>
      simp [PingParser.parseByte, hs, ← hst, PingParser.store, PingParser.advance,
        ParseState.next, InStep, hcap, hbl, hpar, herr, ← hc.1, hp, h0] <;>
      exact agree_store _ _ _ _ hc.2
  case WAIT_SRC_ID =>
    have hc := hcur (by simp)
    have hp := hpl (by simp) (by simp) (by simp)
    by_cases h0 : q.payloadLength_ = 0 <;>
      simp [PingParser.parseByte, hs, ← hst, PingParser.store, PingParser.advance,
        ParseState.next, InStep, hcap, hbl, hpar, herr, ← hc.1, hp, h0] <;>
      exact agree_store _ _ _ _ hc.2
  case WAIT_DST_ID =>
    have hc := hcur (by simp)
    have hp := hpl (by simp) (by simp) (by simp)
    by_cases h0 : q.payloadLength_ = 0 <;>
      simp [PingParser.parseByte, hs, ← hst, PingParser.store, PingParser.advance,
        ParseState.next, InStep, hcap, hbl, hpar, herr, ← hc.1, hp, h0] <;>
      exact agree_store _ _ _ _ hc.2
  case WAIT_PAYLOAD =>
    have hc := hcur (by simp)
    have hp := hpl (by simp) (by simp) (by simp)
    rw [parseByte_payload vc p b hs, parseByte_payload vc q b hst.symm, hp]
    cases Classical.em ((q.payloadLength_ + 65535) % 65536 = 0) with
    | inl hz =>
      rw [if_pos hz, if_pos hz]
      simp only [PingParser.store, InStep, hc.1]
      refine ⟨trivial, trivial, hcap, hbl, hpar, herr, fun _ => ⟨trivial, ?_⟩, fun _ _ _ => trivial⟩
      rw [← hc.1]
      exact agree_store _ _ _ _ hc.2
    | inr hz =>
      rw [if_neg hz, if_neg hz]
      simp only [PingParser.store, InStep, hc.1, hs, ← hst]
      refine ⟨trivial, trivial, hcap, hbl, hpar, herr, fun _ => ⟨trivial, ?_⟩, fun _ _ _ => trivial⟩
      rw [← hc.1]
      exact agree_store _ _ _ _ hc.2
  case WAIT_CHECKSUM_L =>
    have hc := hcur (by simp)
    have hp := hpl (by simp) (by simp) (by simp)
    simp [PingParser.parseByte, hs, ← hst, PingParser.store, PingParser.advance,
        ParseState.next, InStep, hcap, hbl, hpar, herr, ← hc.1, hp]
    exact agree_store _ _ _ _ hc.2
  case WAIT_CHECKSUM_H =>
    have hc := hcur (by simp)
    have hp := hpl (by simp) (by simp) (by simp)
    have hlo := hJ.2
    have h4 : 4 ≤ p.rxCount_ := by unfold verdictCursor at hlo; split at hlo <;> omega
    have hw : (p.rxCount_ + 1) % 4294967296 = p.rxCount_ + 1 := by
      have := hJ.1
      unfold verdictCursor at hlo; split at hlo <;> omega
    have h2 : ¬ 2 = p.rxCount_ := by omega
    have h3 : ¬ 3 = p.rxCount_ := by omega
    have hv : vc (p.store b).rxMessage = vc (q.store b).rxMessage := by
      apply hvc
      · simpa [PingParser.store] using hbl
      · intro i hi
        simp only [PingParser.store, lengthField, Function.update_apply, h2, h3, if_false] at hi
        have := agree_store _ _ p.rxCount_ b hc.2 i
          (by simp only [lengthField] at hlo; omega)
        simpa [PingParser.store, ← hc.1] using this
    simp only [PingParser.store] at hv
    rw [hbl] at hv
    cases hr : vc (q.store b).rxMessage <;> simp only [PingParser.store] at hr <;>
      rw [hr] at hv <;>
      simp [PingParser.parseByte, hs, ← hst, PingParser.store, InStep, hcap, hbl, hpar, herr,
        hv, hr] <;> omega
  case NEW_MESSAGE =>
    simp [PingParser.parseByte, hs, ← hst, InStep, hcap, hbl, hpar, herr]
    exact ⟨hcur (by simp), hpl (by simp) (by simp) (by simp)⟩
  case ERROR =>
    simp [PingParser.parseByte, hs, ← hst, InStep, hcap, hbl, hpar, herr]
    exact ⟨hcur (by simp), hpl (by simp) (by simp) (by simp)⟩

theorem feed_framing (vc : ping_message → Bool) (bs : List Nat) :
    ∀ p : PingParser, (∀ b ∈ bs, b < 256) → Framing p → Framing (p.feed vc bs).2 := by
  induction bs with
  | nil => intro p _ h; exact h
  | cons b bs ih =>
    intro p hb hJ
    simp only [List.mem_cons, forall_eq_or_imp] at hb
    exact ih _ hb.2 (framing_step vc p b hb.1 hJ)

theorem feed_instep (vc : ping_message → Bool) (hvc : ChecksumReadsStored vc) (a e : Nat)
    (bs : List Nat) :
    ∀ p q : PingParser, (∀ b ∈ bs, b < 256) → Framing p → InStep a e p q →
      (p.feed vc bs).1 = (q.feed vc bs).1 ∧ InStep a e (p.feed vc bs).2 (q.feed vc bs).2 := by
  induction bs with
  | nil => intro p q _ _ h; exact ⟨rfl, h⟩
  | cons b bs ih =>
    intro p q hb hJ h
    simp only [List.mem_cons, forall_eq_or_imp] at hb
    have h1 := instep_step vc hvc a e p q b hJ h
    have h2 := ih _ _ hb.2 (framing_step vc p b hb.1 hJ) h1.2
    simp only [PingParser.feed]
    exact ⟨by rw [h1.1, h2.1], h2.2⟩

theorem exampleChecksum_readsStored : ChecksumReadsStored exampleChecksum := by
  intro m1 m2 _ hag0
  have hag : ∀ i, i < lengthField m1 + 10 → m1.msgData i = m2.msgData i := by
    intro i hi
    apply hag0
    unfold verdictCursor
    split <;> omega
  have h2 : m1.msgData 2 = m2.msgData 2 := hag 2 (by omega)
  have h3 : m1.msgData 3 = m2.msgData 3 := hag 3 (by omega)
  have hL : lengthField m2 = lengthField m1 := by simp [lengthField, h2, h3]
  have hmap : (List.range (lengthField m1 + 8)).map m1.msgData =
      (List.range (lengthField m1 + 8)).map m2.msgData := by
    apply List.map_congr_left
    intro i hi
    exact hag i (by have := List.mem_range.mp hi; omega)
  simp only [exampleChecksum, hL, hmap, ← hag (lengthField m1 + 8) (by omega),
    ← hag (lengthField m1 + 9) (by omega)]

/-- Claim C9: no residual state after `reset()`.  Let `verifyChecksum()` read
only the frame the buffer holds (`ChecksumReadsStored`).  A parser in any state
whatever (running state, cursor, payload counter, buffer contents, counters)
on which `reset()` is called, and a freshly constructed parser of the same
capacity, fed the same bytes, return the same values call by call, and the
counters `parsed` and `errors` of the first grow by what those of the fresh
parser grow (they are 32-bit counters, so the sum is modulo `2^32`). -/
theorem no_residual_state_after_reset (vc : ping_message → Bool) (hvc : ChecksumReadsStored vc)
    (p : PingParser) (n : Nat) (mem : Nat → Nat) (C : Nat) (bs : List Nat)
    (hbuf : p.rxMessage.bufferLength = n % 65536) (hC : p.rxBufferLength_ = C)
    (hpar : p.parsed < 4294967296) (herr : p.errors < 4294967296)
    (hb : ∀ b ∈ bs, b < 256) :
    (p.reset.feed vc bs).1 = ((PingParser.init n mem C).feed vc bs).1 ∧
    (p.reset.feed vc bs).2.parsed =
      (p.parsed + ((PingParser.init n mem C).feed vc bs).2.parsed) % 4294967296 ∧
    (p.reset.feed vc bs).2.errors =
      (p.errors + ((PingParser.init n mem C).feed vc bs).2.errors) % 4294967296 := by
  have h0 : InStep p.parsed p.errors p.reset (PingParser.init n mem C) := by
    refine ⟨rfl, hC, hbuf, ?_, ?_, fun h => absurd rfl h, fun h => absurd rfl h⟩
    · exact (Nat.mod_eq_of_lt hpar).symm
    · exact (Nat.mod_eq_of_lt herr).symm
  have hJ : Framing p.reset := by simp [Framing, PingParser.reset]
  have h := feed_instep vc hvc p.parsed p.errors bs _ _ hb hJ h0
  exact ⟨h.1, h.2.2.2.2.1, h.2.2.2.2.2.1⟩

/-- The comparison of a parser aborted mid-payload and then reset with a
fresh parser, on a frame with one payload byte and a correct sum checksum. -/
theorem no_residual_state_after_reset_witness :
    (ChecksumReadsStored exampleChecksum ∧
      exampleMidFrame.rxMessage.bufferLength = 512 % 65536 ∧
      exampleMidFrame.rxBufferLength_ = 512 ∧
      exampleMidFrame.parsed < 4294967296 ∧ exampleMidFrame.errors < 4294967296 ∧
      ∀ b ∈ frame 1 1 2 3 4 [9] 168 0, b < 256) ∧
    ((exampleMidFrame.reset.feed exampleChecksum (frame 1 1 2 3 4 [9] 168 0)).1 =
        ((PingParser.init 512 (fun _ => 0) 512).feed exampleChecksum
          (frame 1 1 2 3 4 [9] 168 0)).1 ∧
      (exampleMidFrame.reset.feed exampleChecksum (frame 1 1 2 3 4 [9] 168 0)).2.parsed =
        (exampleMidFrame.parsed + ((PingParser.init 512 (fun _ => 0) 512).feed exampleChecksum
          (frame 1 1 2 3 4 [9] 168 0)).2.parsed) % 4294967296 ∧
      (exampleMidFrame.reset.feed exampleChecksum (frame 1 1 2 3 4 [9] 168 0)).2.errors =
        (exampleMidFrame.errors + ((PingParser.init 512 (fun _ => 0) 512).feed exampleChecksum
          (frame 1 1 2 3 4 [9] 168 0)).2.errors) % 4294967296) :=
  ⟨⟨exampleChecksum_readsStored, rfl, rfl, by decide, by decide, by decide⟩,
    no_residual_state_after_reset exampleChecksum exampleChecksum_readsStored exampleMidFrame
      512 (fun _ => 0) 512 (frame 1 1 2 3 4 [9] 168 0) rfl rfl (by decide) (by decide)
      (by decide)⟩

/-! ## Running states and reported values -/

theorem parseByte_running (vc : ping_message → Bool) (p : PingParser) (b : Nat)
    (h : p.state_.isVerdict = false) : (p.parseByte vc b).2.state_.isVerdict = false := by
  cases hs : p.state_ <;> rw [hs] at h <;>
    simp only [PingParser.parseByte, hs, PingParser.store, PingParser.advance,
      ParseState.next] <;>
    first
      | (split_ifs <;> rfl)
      | rfl
      | exact absurd h (by decide)

theorem calls_running (vc : ping_message → Bool) (cs : List Call) :
    ∀ p : PingParser, p.state_.isVerdict = false → (p.calls vc cs).state_.isVerdict = false := by
  induction cs with
  | nil => intro p h; exact h
  | cons c cs ih =>
    intro p h
    cases c with
    | byte b => exact ih _ (parseByte_running vc p b h)
    | reset => exact ih _ rfl

theorem parseByte_result (vc : ping_message → Bool) (p : PingParser) (b : Nat) :
    (p.parseByte vc b).1 =
      if p.state_ = .WAIT_CHECKSUM_H then verdict (vc (p.store b).rxMessage)
      else (p.parseByte vc b).2.state_ := by
  cases hs : p.state_ <;>
    simp only [PingParser.parseByte, hs, PingParser.store, PingParser.advance,
      ParseState.next, verdict] <;>
    split_ifs <;> simp_all

/-- Claim C11: `NEW_MESSAGE` and `ERROR` are report-only.  After any sequence
of `parseByte` and `reset` calls on a freshly constructed parser the running
state is neither `NEW_MESSAGE` nor `ERROR`, so the next call enters one of the
cases of the switch; that call returns `NEW_MESSAGE` or `ERROR` exactly when
the running state is `WAIT_CHECKSUM_H`, where the value is the verdict of
`verifyChecksum()`, and in every other state it returns the running state
after the call. -/
theorem terminal_values_report_only (vc : ping_message → Bool) (n : Nat) (mem : Nat → Nat)
    (C : Nat) (cs : List Call) (b : Nat) :
    ((PingParser.init n mem C).calls vc cs).state_ ≠ .NEW_MESSAGE ∧
    ((PingParser.init n mem C).calls vc cs).state_ ≠ .ERROR ∧
    ((((PingParser.init n mem C).calls vc cs).parseByte vc b).1 = .NEW_MESSAGE ∨
        (((PingParser.init n mem C).calls vc cs).parseByte vc b).1 = .ERROR ↔
      ((PingParser.init n mem C).calls vc cs).state_ = .WAIT_CHECKSUM_H) ∧
    (((PingParser.init n mem C).calls vc cs).parseByte vc b).1 =
      (if ((PingParser.init n mem C).calls vc cs).state_ = .WAIT_CHECKSUM_H then
        verdict (vc (((PingParser.init n mem C).calls vc cs).store b).rxMessage)
      else (((PingParser.init n mem C).calls vc cs).parseByte vc b).2.state_) := by
  have hrun := calls_running vc cs (PingParser.init n mem C) rfl
  have hnext := parseByte_running vc _ b hrun
  have hres := parseByte_result vc ((PingParser.init n mem C).calls vc cs) b
  refine ⟨?_, ?_, ?_, hres⟩
  · intro h; rw [h] at hrun; exact absurd hrun (by decide)
  · intro h; rw [h] at hrun; exact absurd hrun (by decide)
  · rw [hres]
    split_ifs with hc
    · simp only [hc, iff_true]
      cases vc (((PingParser.init n mem C).calls vc cs).store b).rxMessage
      · right; rfl
      · left; rfl
    · simp only [hc, iff_false]
      intro h
      rcases h with h | h <;> rw [h] at hnext <;> exact absurd hnext (by decide)

/-! ## The counters -/

theorem parseByte_tally (vc : ping_message → Bool) (p : PingParser) (b : Nat)
    (h : p.state_.isVerdict = false) :
    (p.parseByte vc b).2.parsed =
      (if (p.parseByte vc b).1 = .NEW_MESSAGE then (p.parsed + 1) % 4294967296 else p.parsed) ∧
    (p.parseByte vc b).2.errors =
      (if (p.parseByte vc b).1 = .ERROR then (p.errors + 1) % 4294967296 else p.errors) := by
  cases hs : p.state_ <;> rw [hs] at h <;>
    simp only [PingParser.parseByte, hs, PingParser.store, PingParser.advance,
      ParseState.next] <;>
    first
      | exact absurd h (by decide)
      | (split_ifs <;> simp_all)

theorem parseByte_idle_counters (vc : ping_message → Bool) (p : PingParser) (b : Nat)
    (h : p.state_ ≠ .WAIT_CHECKSUM_H) :
    (p.parseByte vc b).2.parsed = p.parsed ∧ (p.parseByte vc b).2.errors = p.errors := by
  cases hs : p.state_ <;> rw [hs] at h <;>
    simp only [PingParser.parseByte, hs, PingParser.store, PingParser.advance,
      ParseState.next] <;>
    first
      | exact absurd rfl h
      | exact ⟨trivial, trivial⟩
      | (split_ifs <;> simp)

theorem feed_tally (vc : ping_message → Bool) (bs : List Nat) :
    ∀ (p : PingParser) (k e : Nat), p.state_.isVerdict = false →
      p.parsed = k % 4294967296 → p.errors = e % 4294967296 →
      (p.feed vc bs).2.parsed =
        (k + (p.feed vc bs).1.count .NEW_MESSAGE) % 4294967296 ∧
      (p.feed vc bs).2.errors =
        (e + (p.feed vc bs).1.count .ERROR) % 4294967296 := by
  induction bs with
  | nil => intro p k e _ hk he; simpa [PingParser.feed] using ⟨hk, he⟩
  | cons b bs ih =>
    intro p k e h hk he
    have ht := parseByte_tally vc p b h
    have hrun := parseByte_running vc p b h
    simp only [PingParser.feed]
    by_cases hn : (p.parseByte vc b).1 = .NEW_MESSAGE
    · have hne : ¬ (p.parseByte vc b).1 = .ERROR := by rw [hn]; decide
      rw [if_pos hn] at ht
      rw [if_neg hne] at ht
      have := ih (p.parseByte vc b).2 (k + 1) e hrun (by rw [ht.1, hk]; omega)
        (by rw [ht.2, he])
      rw [this.1, this.2, hn]
      simp [List.count_cons]
      omega
    · by_cases hr : (p.parseByte vc b).1 = .ERROR
      · rw [if_neg hn, if_pos hr] at ht
        have := ih (p.parseByte vc b).2 k (e + 1) hrun (by rw [ht.1, hk])
          (by rw [ht.2, he]; omega)
        rw [this.1, this.2, hr]
        simp [List.count_cons]
        omega
      · rw [if_neg hn, if_neg hr] at ht
        have := ih (p.parseByte vc b).2 k e hrun (by rw [ht.1, hk]) (by rw [ht.2, he])
        rw [this.1, this.2]
        have h1 : ((p.parseByte vc b).1 == ParseState.NEW_MESSAGE) = false := by simpa using hn
        have h2 : ((p.parseByte vc b).1 == ParseState.ERROR) = false := by simpa using hr
        simp [List.count_cons, h1, h2]

/-- Claim C12: the counters count verdicts only.  After any bytes fed to a
freshly constructed parser, `parsed` is the number of calls that returned
`NEW_MESSAGE` and `errors` the number that returned `ERROR`, both modulo
`2^32`; and a call made in a running state other than `WAIT_CHECKSUM_H`,
whatever the parser and the byte, leaves both counters as they were. -/
theorem counters_count_verdicts (vc : ping_message → Bool) (n : Nat) (mem : Nat → Nat)
    (C : Nat) (bs : List Nat) :
    ((PingParser.init n mem C).feed vc bs).2.parsed =
      ((PingParser.init n mem C).feed vc bs).1.count .NEW_MESSAGE % 4294967296 ∧
    ((PingParser.init n mem C).feed vc bs).2.errors =
      ((PingParser.init n mem C).feed vc bs).1.count .ERROR % 4294967296 ∧
    ∀ (p : PingParser) (b : Nat), p.state_ ≠ .WAIT_CHECKSUM_H →
      (p.parseByte vc b).2.parsed = p.parsed ∧ (p.parseByte vc b).2.errors = p.errors := by
  have h := feed_tally vc bs (PingParser.init n mem C) 0 0 rfl rfl rfl
  simp only [Nat.zero_add] at h
  exact ⟨h.1, h.2, fun p b hp => parseByte_idle_counters vc p b hp⟩

/-- The counters over two good frames, noise and a frame with a wrong
checksum, and a call in `WAIT_START` that leaves the counters alone. -/
theorem counters_count_verdicts_witness :
    (((PingParser.init 512 (fun _ => 0) 512).feed exampleChecksum
        (frame 1 1 2 3 4 [9] 168 0 ++ [0, 66, 7] ++ frame 1 1 2 3 4 [9] 167 0
          ++ frame 1 1 2 3 4 [9] 168 0)).2.parsed =
      ((PingParser.init 512 (fun _ => 0) 512).feed exampleChecksum
        (frame 1 1 2 3 4 [9] 168 0 ++ [0, 66, 7] ++ frame 1 1 2 3 4 [9] 167 0
          ++ frame 1 1 2 3 4 [9] 168 0)).1.count .NEW_MESSAGE % 4294967296) ∧
    ((PingParser.init 512 (fun _ => 0) 512).feed exampleChecksum
        (frame 1 1 2 3 4 [9] 168 0 ++ [0, 66, 7] ++ frame 1 1 2 3 4 [9] 167 0
          ++ frame 1 1 2 3 4 [9] 168 0)).1.count .NEW_MESSAGE = 2 ∧
    ((PingParser.init 512 (fun _ => 0) 512).feed exampleChecksum
        (frame 1 1 2 3 4 [9] 168 0 ++ [0, 66, 7] ++ frame 1 1 2 3 4 [9] 167 0
          ++ frame 1 1 2 3 4 [9] 168 0)).1.count .ERROR = 1 ∧
    (exampleStale.state_ ≠ .WAIT_CHECKSUM_H ∧
      (exampleStale.parseByte exampleChecksum 66).2.parsed = exampleStale.parsed ∧
      (exampleStale.parseByte exampleChecksum 66).2.errors = exampleStale.errors) :=
  ⟨(counters_count_verdicts exampleChecksum 512 (fun _ => 0) 512
      (frame 1 1 2 3 4 [9] 168 0 ++ [0, 66, 7] ++ frame 1 1 2 3 4 [9] 167 0
        ++ frame 1 1 2 3 4 [9] 168 0)).1,
    by decide, by decide,
    by decide,
    (counters_count_verdicts exampleChecksum 512 (fun _ => 0) 512 []).2.2 exampleStale 66
      (by decide)⟩

/-! ## The magic header -/

theorem parseByte_header_cursor (vc : ping_message → Bool) (p : PingParser) (b : Nat) :
    (p.parseByte vc b).2.state_ = .WAIT_HEADER → (p.parseByte vc b).2.rxCount_ = 1 := by
  cases hs : p.state_ <;>
    simp only [PingParser.parseByte, hs, PingParser.store, PingParser.advance,
      ParseState.next] <;>
    first
      | (split_ifs <;> simp)
      | simp

theorem calls_header_cursor (vc : ping_message → Bool) (cs : List Call) :
    ∀ p : PingParser, (p.state_ = .WAIT_HEADER → p.rxCount_ = 1) →
      (p.calls vc cs).state_ = .WAIT_HEADER → (p.calls vc cs).rxCount_ = 1 := by
  induction cs with
  | nil => intro p h; exact h
  | cons c cs ih =>
    intro p _
    cases c with
    | byte b => exact ih _ (parseByte_header_cursor vc p b)
    | reset => exact ih p.reset (fun h => absurd h (by simp [PingParser.reset]))

theorem feed_no_B (vc : ping_message → Bool) (bs : List Nat) :
    ∀ p : PingParser, p.state_ = .WAIT_START → (∀ x ∈ bs, x ≠ 66) →
      (∀ s ∈ (p.feed vc bs).1, s = .WAIT_START) ∧
      (p.feed vc bs).2.state_ = .WAIT_START ∧
      (p.feed vc bs).2.rxMessage = p.rxMessage ∧
      (p.feed vc bs).2.parsed = p.parsed ∧
      (p.feed vc bs).2.errors = p.errors := by
  induction bs with
  | nil => intro p hs _; simp [PingParser.feed, hs]
  | cons b bs ih =>
    intro p hs hb
    simp only [List.mem_cons, forall_eq_or_imp] at hb
    have hstep : p.parseByte vc b = (.WAIT_START, { p with rxCount_ := 0 }) := by
      rw [parseByte_start vc p b hs, if_neg hb.1]
    have := ih { p with rxCount_ := 0 } hs hb.2
    simp only [PingParser.feed, hstep, List.mem_cons, forall_eq_or_imp]
    exact ⟨⟨trivial, this.1⟩, this.2⟩

/-- Claim C13: magic-header matching.  In `WAIT_START`, `parseByte(b)` sets
the cursor to 0 and, if `b` is `'B'`, stores it at offset 0, leaves the cursor
at 1 and moves to `WAIT_HEADER`; otherwise it stores nothing and stays in
`WAIT_START`.  In `WAIT_HEADER`, reached by any calls from construction, the
cursor is 1; if `b` is `'R'` it is stored at offset 1, the cursor becomes 2
and the parser moves to `WAIT_LENGTH_L`; every other byte, `'B'` too, is not
stored and sends the parser to `WAIT_START`.  Every other field is left as it
was.  Hence bytes none of which is `'B'`, fed in `WAIT_START`, return
`WAIT_START` each and leave state, buffer and counters unchanged. -/
theorem magic_header_matching (vc : ping_message → Bool) (p : PingParser) (b : Nat)
    (n : Nat) (mem : Nat → Nat) (C : Nat) (cs : List Call) (bs : List Nat) :
    (p.state_ = .WAIT_START →
      p.parseByte vc b =
        if b = 66 then
          (.WAIT_HEADER,
            { p with
              rxMessage := { p.rxMessage with
                msgData := Function.update p.rxMessage.msgData 0 b }
              rxCount_ := 1
              state_ := .WAIT_HEADER })
        else (.WAIT_START, { p with rxCount_ := 0 })) ∧
    (((PingParser.init n mem C).calls vc cs).state_ = .WAIT_HEADER →
      ((PingParser.init n mem C).calls vc cs).rxCount_ = 1 ∧
      ((PingParser.init n mem C).calls vc cs).parseByte vc b =
        if b = 82 then
          (.WAIT_LENGTH_L,
            { (PingParser.init n mem C).calls vc cs with
              rxMessage := { ((PingParser.init n mem C).calls vc cs).rxMessage with
                msgData := Function.update
                  ((PingParser.init n mem C).calls vc cs).rxMessage.msgData 1 b }
              rxCount_ := 2
              state_ := .WAIT_LENGTH_L })
        else (.WAIT_START, { (PingParser.init n mem C).calls vc cs with state_ := .WAIT_START })) ∧
    (p.state_ = .WAIT_START → (∀ x ∈ bs, x ≠ 66) →
      (∀ s ∈ (p.feed vc bs).1, s = .WAIT_START) ∧
      (p.feed vc bs).2.state_ = .WAIT_START ∧
      (p.feed vc bs).2.rxMessage = p.rxMessage ∧
      (p.feed vc bs).2.parsed = p.parsed ∧
      (p.feed vc bs).2.errors = p.errors) := by
  refine ⟨fun hs => parseByte_start vc p b hs, fun hs => ?_, fun hs hb => feed_no_B vc bs p hs hb⟩
  have hc := calls_header_cursor vc cs (PingParser.init n mem C)
    (fun h => absurd h (by simp [PingParser.init])) hs
  refine ⟨hc, ?_⟩
  rw [parseByte_header vc _ b hs]
  simp [PingParser.store, hc]

/-- The magic-header claim on a parser of capacity 512: `'B'` in `WAIT_START`,
the cursor in the `WAIT_HEADER` reached by `'B'` from construction, and the
noise `0x00, 0x41, 0x07` in `WAIT_START`. -/
theorem magic_header_matching_witness :
    (exampleParser.state_ = .WAIT_START ∧
      exampleParser.parseByte (fun _ => true) 66 =
        if 66 = 66 then
          (.WAIT_HEADER,
            { exampleParser with
              rxMessage := { exampleParser.rxMessage with
                msgData := Function.update exampleParser.rxMessage.msgData 0 66 }
              rxCount_ := 1
              state_ := .WAIT_HEADER })
        else (.WAIT_START, { exampleParser with rxCount_ := 0 })) ∧
    (((PingParser.init 512 (fun _ => 0) 512).calls (fun _ => true) [Call.byte 66]).state_ =
        .WAIT_HEADER ∧
      ((PingParser.init 512 (fun _ => 0) 512).calls (fun _ => true) [Call.byte 66]).rxCount_ =
        1) ∧
    ((∀ x ∈ [0, 65, 7], x ≠ 66) ∧
      (exampleParser.feed (fun _ => true) [0, 65, 7]).2.state_ = .WAIT_START ∧
      (exampleParser.feed (fun _ => true) [0, 65, 7]).2.rxMessage = exampleParser.rxMessage) :=
  ⟨⟨rfl, (magic_header_matching (fun _ => true) exampleParser 66 512 (fun _ => 0) 512
      [Call.byte 66] [0, 65, 7]).1 rfl⟩,
    ⟨by decide, ((magic_header_matching (fun _ => true) exampleParser 66 512 (fun _ => 0) 512
      [Call.byte 66] [0, 65, 7]).2.1 (by decide)).1⟩,
    ⟨by decide, ((magic_header_matching (fun _ => true) exampleParser 66 512 (fun _ => 0) 512
      [Call.byte 66] [0, 65, 7]).2.2 rfl (by decide)).2.1,
      ((magic_header_matching (fun _ => true) exampleParser 66 512 (fun _ => 0) 512
      [Call.byte 66] [0, 65, 7]).2.2 rfl (by decide)).2.2.1⟩⟩

/-! ## Construction -/

/-- Claim C14: construction does not fix the capacity of the length check.  A
parser constructed with buffer length 512 in zeroed storage starts in
`WAIT_START` with `parsed = 0`, `errors = 0`, cursor 0 and a message buffer of
capacity 512, but `rxBufferLength_`, which the constructor never writes, holds
0 and not 512; the length check then lets the length `0xFFFF` through. -/
theorem constructor_leaves_capacity_unset :
    (PingParser.init 512 (fun _ => 0) 0).state_ = .WAIT_START ∧
    (PingParser.init 512 (fun _ => 0) 0).parsed = 0 ∧
    (PingParser.init 512 (fun _ => 0) 0).errors = 0 ∧
    (PingParser.init 512 (fun _ => 0) 0).rxCount_ = 0 ∧
    (PingParser.init 512 (fun _ => 0) 0).rxMessage.bufferLength = 512 ∧
    (PingParser.init 512 (fun _ => 0) 0).rxBufferLength_ = 0 ∧
    (PingParser.init 512 (fun _ => 0) 0).rxBufferLength_ ≠
      (PingParser.init 512 (fun _ => 0) 0).rxMessage.bufferLength ∧
    ((PingParser.init 512 (fun _ => 0) 0).feed (fun _ => true) [66, 82, 255, 255]).1 =
      [.WAIT_HEADER, .WAIT_LENGTH_L, .WAIT_LENGTH_H, .WAIT_MSG_ID_L] ∧
    ((PingParser.init 512 (fun _ => 0) 0).feed (fun _ => true)
      [66, 82, 255, 255]).2.payloadLength_ = 65535 := by
  decide
